import Mathlib

set_option maxRecDepth 16384

/-!
Verification development for the filen-sdk-go core: metadata cryptography
(key derivation, name hashing) and the path-resolution engine
(ReadDirectory, FindItem, FindItemUUID, FindDirectoryOrCreate,
CreateDirectory) from src/filen/cloud.go and src/filen/crypto/other.go.

Machine integers are modelled as Nat with explicit reduction mod 2^64 where
the Go code works on uint64 words; byte sequences are List Nat with entries
below 256. Fallible Go calls (returning err) are modelled with Except.
-/

namespace crypto

/-- Reduce a natural number to a 64-bit word, as Go uint64 arithmetic does. -/
def w64 (n : Nat) : Nat := n % 18446744073709551616

/-- Right rotation of a 64-bit word by k bits (k ≤ 64), on values < 2^64. -/
def rotr64 (x k : Nat) : Nat := (x >>> k) ||| ((x % (2 ^ k)) <<< (64 - k))

/-- Bitwise complement of a 64-bit word. -/
def not64 (x : Nat) : Nat := x ^^^ 18446744073709551615

/-- The eight initial SHA-512 hash values (FIPS 180-4): the first 64 bits
of the fractional parts of the square roots of the first eight primes,
written in decimal. -/
def sha512H0 : List Nat :=
  [7640891576956012808, 13503953896175478587, 4354685564936845355,
   11912009170470909681, 5840696475078001361, 11170449401992604703,
   2270897969802886507, 6620516959819538809]

/-- The eighty SHA-512 round constants (FIPS 180-4): the first 64 bits of
the fractional parts of the cube roots of the first eighty primes, written
in decimal. -/
def sha512K : List Nat :=
  [4794697086780616226, 8158064640168781261, 13096744586834688815,
   16840607885511220156, 4131703408338449720, 6480981068601479193,
   10538285296894168987, 12329834152419229976, 15566598209576043074,
   1334009975649890238, 2608012711638119052, 6128411473006802146,
   8268148722764581231, 9286055187155687089, 11230858885718282805,
   13951009754708518548, 16472876342353939154, 17275323862435702243,
   1135362057144423861, 2597628984639134821, 3308224258029322869,
   5365058923640841347, 6679025012923562964, 8573033837759648693,
   10970295158949994411, 12119686244451234320, 12683024718118986047,
   13788192230050041572, 14330467153632333762, 15395433587784984357,
   489312712824947311, 1452737877330783856, 2861767655752347644,
   3322285676063803686, 5560940570517711597, 5996557281743188959,
   7280758554555802590, 8532644243296465576, 9350256976987008742,
   10552545826968843579, 11727347734174303076, 12113106623233404929,
   14000437183269869457, 14369950271660146224, 15101387698204529176,
   15463397548674623760, 17586052441742319658, 1182934255886127544,
   1847814050463011016, 2177327727835720531, 2830643537854262169,
   3796741975233480872, 4115178125766777443, 5681478168544905931,
   6601373596472566643, 7507060721942968483, 8399075790359081724,
   8693463985226723168, 9568029438360202098, 10144078919501101548,
   10430055236837252648, 11840083180663258601, 13761210420658862357,
   14299343276471374635, 14566680578165727644, 15097957966210449927,
   16922976911328602910, 17689382322260857208, 500013540394364858,
   748580250866718886, 1242879168328830382, 1977374033974150939,
   2944078676154940804, 3659926193048069267, 4368137639120453308,
   4836135668995329356, 5532061633213252278, 6448918945643986474,
   6902733635092675308, 7801388544844847127]

/-- SHA-512 small sigma 0. -/
def ssig0 (x : Nat) : Nat := rotr64 x 1 ^^^ rotr64 x 8 ^^^ (x >>> 7)

/-- SHA-512 small sigma 1. -/
def ssig1 (x : Nat) : Nat := rotr64 x 19 ^^^ rotr64 x 61 ^^^ (x >>> 6)

/-- SHA-512 big sigma 0. -/
def bsig0 (x : Nat) : Nat := rotr64 x 28 ^^^ rotr64 x 34 ^^^ rotr64 x 39

/-- SHA-512 big sigma 1. -/
def bsig1 (x : Nat) : Nat := rotr64 x 14 ^^^ rotr64 x 18 ^^^ rotr64 x 41

/-- Big-endian encoding of a natural number into k bytes. -/
def natToBytesBE : Nat → Nat → List Nat
  | 0, _ => []
  | k + 1, n => natToBytesBE k (n >>> 8) ++ [n % 256]

/-- Big-endian decoding of a byte list into a natural number. -/
def bytesToNatBE (l : List Nat) : Nat := l.foldl (fun acc b => acc * 256 + b) 0

/-- Big-endian bytes of a 64-bit word. -/
def wordToBytes (n : Nat) : List Nat := natToBytesBE 8 n

/-- Split a byte list into 128-byte blocks (fuel-driven structural recursion). -/
def splitBlocksAux : Nat → List Nat → List (List Nat)
  | 0, _ => []
  | _, [] => []
  | fuel + 1, l => l.take 128 :: splitBlocksAux fuel (l.drop 128)

/-- Split a byte list into 128-byte blocks. -/
def splitBlocks (l : List Nat) : List (List Nat) := splitBlocksAux l.length l

/-- Extend the first 16 message-schedule words to all 80 (newest word first). -/
def scheduleExtend : Nat → List Nat → List Nat
  | 0, w => w
  | k + 1, w =>
    scheduleExtend k
      (w64 (ssig1 (w.getD 1 0) + w.getD 6 0 + ssig0 (w.getD 14 0) + w.getD 15 0) :: w)

/-- The 80 message-schedule words for one 128-byte block, in order. -/
def messageSchedule (block : List Nat) : List Nat :=
  let w16 := (List.range 16).map (fun t => bytesToNatBE ((block.drop (8 * t)).take 8))
  (scheduleExtend 64 w16.reverse).reverse

/-- One SHA-512 compression round; the state is the eight words a..h. -/
def sha512Round (st : List Nat) (kw : Nat × Nat) : List Nat :=
  let a := st.getD 0 0
  let b := st.getD 1 0
  let c := st.getD 2 0
  let d := st.getD 3 0
  let e := st.getD 4 0
  let f := st.getD 5 0
  let g := st.getD 6 0
  let h := st.getD 7 0
  let ch := (e &&& f) ^^^ (not64 e &&& g)
  let maj := (a &&& b) ^^^ (a &&& c) ^^^ (b &&& c)
  let t1 := w64 (h + bsig1 e + ch + kw.1 + kw.2)
  let t2 := w64 (bsig0 a + maj)
  [w64 (t1 + t2), a, b, c, w64 (d + t1), e, f, g]

/-- Process one 128-byte block of the SHA-512 state. -/
def sha512Block (st : List Nat) (block : List Nat) : List Nat :=
  let w := messageSchedule block
  let final := (sha512K.zip w).foldl sha512Round st
  List.zipWith (fun x y => w64 (x + y)) st final

/-- SHA-512 padding of a message to a multiple of 128 bytes. -/
def sha512Pad (m : List Nat) : List Nat :=
  m ++ [0x80] ++ List.replicate ((239 - m.length % 128) % 128) 0 ++
    natToBytesBE 16 (m.length * 8)

/-- SHA-512 of a byte sequence, as a 64-byte digest. -/
def sha512 (m : List Nat) : List Nat :=
  ((splitBlocks (sha512Pad m)).foldl sha512Block sha512H0).flatMap wordToBytes

/-- Modelled from the spec: RunSHA521 of the crypto package is absent from
src/; per its name and §4.2 (SHA-512-family digest) it is plain SHA-512 of
its input bytes. -/
def RunSHA521 (b : List Nat) : List Nat := sha512 b

/-- Modelled from the spec: the unexported runSHA521 used by
GeneratePasswordAndMasterKey is likewise plain SHA-512. -/
def runSHA512lower (b : List Nat) : List Nat := sha512 b

/-- Lowercase hex digit for a value below 16, as Go encoding/hex produces. -/
def hexDigitChar (n : Nat) : Char :=
  if n < 10 then Char.ofNat (48 + n) else Char.ofNat (87 + n)

/-- Hex encoding of a byte list, as Go hex.EncodeToString. -/
def hexEncode (l : List Nat) : String :=
  String.mk (l.flatMap (fun b => [hexDigitChar (b / 16 % 16), hexDigitChar (b % 16)]))

/-- UTF-8 encoding of one unicode scalar value. -/
def utf8EncodeChar (c : Char) : List Nat :=
  let n := c.toNat
  if n < 0x80 then [n]
  else if n < 0x800 then [0xc0 + n / 64, 0x80 + n % 64]
  else if n < 0x10000 then [0xe0 + n / 4096, 0x80 + n / 64 % 64, 0x80 + n % 64]
  else [0xf0 + n / 262144, 0x80 + n / 4096 % 64, 0x80 + n / 64 % 64, 0x80 + n % 64]

/-- The bytes of a string, as Go obtains them with a []byte conversion. -/
def utf8Bytes (s : String) : List Nat := s.data.flatMap utf8EncodeChar

/-- Bytewise xor of two equal-length byte lists. -/
def xorBytes (a b : List Nat) : List Nat := List.zipWith (· ^^^ ·) a b

/-- HMAC-SHA512 (RFC 2104) of a message under a key; block size 128 bytes. -/
def hmacSha512 (key msg : List Nat) : List Nat :=
  let k0 := if 128 < key.length then sha512 key else key
  let k1 := k0 ++ List.replicate (128 - k0.length) 0
  let ipad := k1.map (fun b => b ^^^ 0x36)
  let opad := k1.map (fun b => b ^^^ 0x5c)
  sha512 (opad ++ sha512 (ipad ++ msg))

/-- The xor-accumulation of PBKDF2 iterations: given U_j and the running
accumulator, applies the PRF count more times. -/
def pbkdf2Iter (password : List Nat) : Nat → List Nat → List Nat → List Nat
  | 0, _, acc => acc
  | k + 1, u, acc =>
    let u' := hmacSha512 password u
    pbkdf2Iter password k u' (xorBytes acc u')

/-- One PBKDF2 block T_i (RFC 2898) with PRF HMAC-SHA512. -/
def pbkdf2BlockT (password salt : List Nat) (c i : Nat) : List Nat :=
  match c with
  | 0 => []
  | c' + 1 =>
    let u1 := hmacSha512 password (salt ++ natToBytesBE 4 i)
    pbkdf2Iter password c' u1 u1

/-- PBKDF2 with PRF HMAC-SHA512, as golang.org/x/crypto/pbkdf2.Key with
sha512.New: derives keyLen bytes using c iterations. -/
def pbkdf2Key (password salt : List Nat) (c keyLen : Nat) : List Nat :=
  let numBlocks := (keyLen + 63) / 64
  (((List.range numBlocks).map (fun i => pbkdf2BlockT password salt c (i + 1))).flatten).take
    keyLen

/-- DeriveKeyFromPassword from src/filen/crypto/other.go: PBKDF2 over the
password and salt with the given iteration count and bit length, PRF SHA-512. -/
def DeriveKeyFromPassword (password salt : String) (iterations bitLength : Nat) : List Nat :=
  pbkdf2Key (utf8Bytes password) (utf8Bytes salt) iterations (bitLength / 8)

/-- Go fmt.Sprintf of a byte slice with verb %032x: the hex encoding,
left-padded with zero digits to at least 32 characters. -/
def sprintf032x (l : List Nat) : String :=
  let h := hexEncode l
  if h.length < 32 then String.mk (List.replicate (32 - h.length) '0' ++ h.data) else h

/-- GeneratePasswordAndMasterKey from src/filen/crypto/other.go. -/
def GeneratePasswordAndMasterKey (rawPassword salt : String) : String × String :=
  let derivedKey := hexEncode (DeriveKeyFromPassword rawPassword salt 200000 512)
  let derivedMasterKey := String.mk (derivedKey.data.take (derivedKey.length / 2))
  let secondHalf := String.mk (derivedKey.data.drop (derivedKey.length / 2))
  let derivedPassword := sprintf032x (runSHA512lower (utf8Bytes secondHalf))
  (derivedMasterKey, derivedPassword)

end crypto

/-! ## JSON model

Embedding of the Go encoding/json behavior the source relies on:
`json.Marshal` of a `struct{Name string}` (with Go's default HTML escaping)
and `json.Unmarshal` into the two fixed metadata struct shapes, where
missing fields are left at their zero values and type mismatches are
errors. -/

/-- The opening brace character. -/
def obrace : Char := Char.ofNat 123

/-- The closing brace character. -/
def cbrace : Char := Char.ofNat 125

/-- JSON values; numbers are split into exact integers (which Go can decode
into an int field) and other numerals (which make such a decode fail). -/
inductive Json where
  | null
  | bool (b : Bool)
  | int (n : Int)
  | decimal
  | str (s : String)
  | arr (elems : List Json)
  | obj (fields : List (String × Json))

/-- JSON whitespace. -/
def isWs (c : Char) : Bool := c = ' ' || c = Char.ofNat 9 || c = Char.ofNat 10 || c = Char.ofNat 13

/-- Drop leading JSON whitespace. -/
def skipWs : List Char → List Char
  | [] => []
  | c :: rest => if isWs c then skipWs rest else c :: rest

/-- ASCII decimal digit test. -/
def isDigit (c : Char) : Bool := 48 ≤ c.toNat && c.toNat ≤ 57

/-- Value of a decimal digit string. -/
def natOfDigits (l : List Char) : Nat := l.foldl (fun a c => a * 10 + (c.toNat - 48)) 0

/-- Parse one hex digit. -/
def parseHexDigit (c : Char) : Option Nat :=
  if 48 ≤ c.toNat ∧ c.toNat ≤ 57 then some (c.toNat - 48)
  else if 97 ≤ c.toNat ∧ c.toNat ≤ 102 then some (c.toNat - 87)
  else if 65 ≤ c.toNat ∧ c.toNat ≤ 70 then some (c.toNat - 55)
  else none

/-- Prefix a character onto the parsed part of a string-body result. -/
def consParsed (c : Char) (o : Option (List Char × List Char)) : Option (List Char × List Char) :=
  o.map (fun p => (c :: p.1, p.2))

/-- Parse the body of a JSON string literal after the opening quote, up to
and including the closing quote; returns the decoded characters and the
remaining input. Fuel-driven; any fuel above the input length is enough. -/
def parseStringBody : Nat → List Char → Option (List Char × List Char)
  | 0, _ => none
  | fuel + 1, l =>
    match l with
    | [] => none
    | c :: rest =>
      if c = '"' then some ([], rest)
      else if c = '\\' then
        match rest with
        | '"' :: r => consParsed '"' (parseStringBody fuel r)
        | '\\' :: r => consParsed '\\' (parseStringBody fuel r)
        | '/' :: r => consParsed '/' (parseStringBody fuel r)
        | 'b' :: r => consParsed (Char.ofNat 8) (parseStringBody fuel r)
        | 'f' :: r => consParsed (Char.ofNat 12) (parseStringBody fuel r)
        | 'n' :: r => consParsed (Char.ofNat 10) (parseStringBody fuel r)
        | 'r' :: r => consParsed (Char.ofNat 13) (parseStringBody fuel r)
        | 't' :: r => consParsed (Char.ofNat 9) (parseStringBody fuel r)
        | 'u' :: h1 :: h2 :: h3 :: h4 :: r =>
          match parseHexDigit h1 with
          | none => none
          | some k1 =>
            match parseHexDigit h2 with
            | none => none
            | some k2 =>
              match parseHexDigit h3 with
              | none => none
              | some k3 =>
                match parseHexDigit h4 with
                | none => none
                | some k4 =>
                  let n := k1 * 4096 + k2 * 256 + k3 * 16 + k4
                  if n < 55296 ∨ (57344 ≤ n ∧ n < 1114112) then
                    consParsed (Char.ofNat n) (parseStringBody fuel r)
                  else none
        | _ => none
      else consParsed c (parseStringBody fuel rest)

/-- Parse an optional exponent sign and mandatory digits. -/
def parseExpTail (l : List Char) : Option (List Char) :=
  let l1 := match l with
    | '+' :: r => r
    | '-' :: r => r
    | _ => l
  if (l1.takeWhile isDigit).isEmpty then none else some (l1.dropWhile isDigit)

/-- Parse a JSON number; integer literals become `Json.int`, fractional or
exponent forms become `Json.decimal`. -/
def parseNumber (l : List Char) : Option (Json × List Char) :=
  let neg := match l with
    | '-' :: _ => true
    | _ => false
  let l1 := match l with
    | '-' :: r => r
    | _ => l
  let ds := l1.takeWhile isDigit
  let r1 := l1.dropWhile isDigit
  if ds.isEmpty then none
  else
    let v : Int := if neg then -(Int.ofNat (natOfDigits ds)) else Int.ofNat (natOfDigits ds)
    match r1 with
    | '.' :: r2 =>
      let fs := r2.takeWhile isDigit
      let r3 := r2.dropWhile isDigit
      if fs.isEmpty then none
      else
        match r3 with
        | 'e' :: r4 => (parseExpTail r4).map (fun r => (Json.decimal, r))
        | 'E' :: r4 => (parseExpTail r4).map (fun r => (Json.decimal, r))
        | _ => some (Json.decimal, r3)
    | 'e' :: r4 => (parseExpTail r4).map (fun r => (Json.decimal, r))
    | 'E' :: r4 => (parseExpTail r4).map (fun r => (Json.decimal, r))
    | _ => some (Json.int v, r1)

/-- Match a literal token. -/
def stripTok : List Char → List Char → Option (List Char)
  | [], l => some l
  | _ :: _, [] => none
  | t :: ts, c :: cs => if c = t then stripTok ts cs else none

mutual

/-- Parse one JSON value (fuel-driven; the fuel bounds nesting depth). -/
def parseValue : Nat → List Char → Option (Json × List Char)
  | 0, _ => none
  | fuel + 1, l =>
    match skipWs l with
    | [] => none
    | c :: rest =>
      if c = 'n' then (stripTok ['u', 'l', 'l'] rest).map (fun r => (Json.null, r))
      else if c = 't' then (stripTok ['r', 'u', 'e'] rest).map (fun r => (Json.bool true, r))
      else if c = 'f' then (stripTok ['a', 'l', 's', 'e'] rest).map (fun r => (Json.bool false, r))
      else if c = '"' then
        (parseStringBody (rest.length + 1) rest).map (fun p => (Json.str (String.mk p.1), p.2))
      else if c = '[' then
        match skipWs rest with
        | [] => none
        | c2 :: r2 => if c2 = ']' then some (Json.arr [], r2) else parseArrayRest fuel [] (c2 :: r2)
      else if c = obrace then
        match skipWs rest with
        | [] => none
        | c2 :: r2 => if c2 = cbrace then some (Json.obj [], r2) else parseObjRest fuel [] (c2 :: r2)
      else parseNumber (c :: rest)

/-- Parse the remaining elements of a JSON array. -/
def parseArrayRest : Nat → List Json → List Char → Option (Json × List Char)
  | 0, _, _ => none
  | fuel + 1, acc, l =>
    match parseValue fuel l with
    | none => none
    | some (v, rest) =>
      match skipWs rest with
      | [] => none
      | c :: r =>
        if c = ',' then parseArrayRest fuel (acc ++ [v]) r
        else if c = ']' then some (Json.arr (acc ++ [v]), r)
        else none

/-- Parse the remaining members of a JSON object (input positioned at a key). -/
def parseObjRest : Nat → List (String × Json) → List Char → Option (Json × List Char)
  | 0, _, _ => none
  | fuel + 1, acc, l =>
    match l with
    | c0 :: r0 =>
      if c0 = '"' then
        match parseStringBody (r0.length + 1) r0 with
        | none => none
        | some (k, r1) =>
          match skipWs r1 with
          | ':' :: r2 =>
            match parseValue fuel r2 with
            | none => none
            | some (v, r3) =>
              match skipWs r3 with
              | [] => none
              | c :: r4 =>
                if c = ',' then parseObjRest fuel (acc ++ [(String.mk k, v)]) (skipWs r4)
                else if c = cbrace then some (Json.obj (acc ++ [(String.mk k, v)]), r4)
                else none
          | _ => none
      else none
    | [] => none

end

/-- Parse a complete JSON document, rejecting trailing non-whitespace, as
Go json.Unmarshal does. -/
def parseJson (s : String) : Option Json :=
  match parseValue (s.data.length + 3) s.data with
  | none => none
  | some (j, rest) => if (skipWs rest).isEmpty then some j else none

/-- The decrypted per-file metadata record of cloud.go (fields name, size,
mime, key, lastModified), with Go zero values as defaults. -/
structure FileMetadata where
  name : String
  size : Int
  mime : String
  key : String
  lastModified : Int
deriving DecidableEq

/-- Go assignment of a JSON value to a string struct field: strings set it,
null leaves the previous value, anything else is a type error. -/
def setStringField (cur : String) : Json → Except String String
  | Json.str s => Except.ok s
  | Json.null => Except.ok cur
  | _ => Except.error "json: cannot unmarshal value into field of type string"

/-- Go assignment of a JSON value to an int struct field. -/
def setIntField (cur : Int) : Json → Except String Int
  | Json.int n => Except.ok n
  | Json.null => Except.ok cur
  | _ => Except.error "json: cannot unmarshal value into field of type int"

/-- Fold the members of a JSON object into a FileMetadata record the way Go
json.Unmarshal fills the anonymous struct in ReadDirectory: matching keys
assign (later duplicates win), unknown keys are ignored, missing keys keep
zero values. -/
def decodeFileFields : FileMetadata → List (String × Json) → Except String FileMetadata
  | m, [] => Except.ok m
  | m, (k, v) :: rest =>
    if k = "name" then
      match setStringField m.name v with
      | Except.error e => Except.error e
      | Except.ok x => decodeFileFields ⟨x, m.size, m.mime, m.key, m.lastModified⟩ rest
    else if k = "size" then
      match setIntField m.size v with
      | Except.error e => Except.error e
      | Except.ok x => decodeFileFields ⟨m.name, x, m.mime, m.key, m.lastModified⟩ rest
    else if k = "mime" then
      match setStringField m.mime v with
      | Except.error e => Except.error e
      | Except.ok x => decodeFileFields ⟨m.name, m.size, x, m.key, m.lastModified⟩ rest
    else if k = "key" then
      match setStringField m.key v with
      | Except.error e => Except.error e
      | Except.ok x => decodeFileFields ⟨m.name, m.size, m.mime, x, m.lastModified⟩ rest
    else if k = "lastModified" then
      match setIntField m.lastModified v with
      | Except.error e => Except.error e
      | Except.ok x => decodeFileFields ⟨m.name, m.size, m.mime, m.key, x⟩ rest
    else decodeFileFields m rest

/-- json.Unmarshal of decrypted file metadata into the struct of
ReadDirectory (cloud.go lines 178-188). -/
def parseFileMetadata (s : String) : Except String FileMetadata :=
  match parseJson s with
  | none => Except.error ("invalid JSON: " ++ s)
  | some Json.null => Except.ok ⟨"", 0, "", "", 0⟩
  | some (Json.obj fields) => decodeFileFields ⟨"", 0, "", "", 0⟩ fields
  | some _ => Except.error ("json: cannot unmarshal value into struct: " ++ s)

/-- Fold the members of a JSON object into the single-field name struct of
ReadDirectory and CreateDirectory. -/
def decodeNameFields : String → List (String × Json) → Except String String
  | cur, [] => Except.ok cur
  | cur, (k, v) :: rest =>
    if k = "name" then
      match setStringField cur v with
      | Except.error e => Except.error e
      | Except.ok x => decodeNameFields x rest
    else decodeNameFields cur rest

/-- json.Unmarshal of decrypted directory metadata into the struct
struct{Name string} of ReadDirectory (cloud.go lines 213-219). -/
def parseDirectoryName (s : String) : Except String String :=
  match parseJson s with
  | none => Except.error ("invalid JSON: " ++ s)
  | some Json.null => Except.ok ""
  | some (Json.obj fields) => decodeNameFields "" fields
  | some _ => Except.error ("json: cannot unmarshal value into struct: " ++ s)

/-- Go json string escaping (encoding/json appendString with the default
HTML escaping): quote, backslash, control characters, angle brackets,
ampersand and the line separators U+2028/U+2029. -/
def escapeChar (c : Char) : List Char :=
  if c = '"' then ['\\', '"']
  else if c = '\\' then ['\\', '\\']
  else if c = Char.ofNat 10 then ['\\', 'n']
  else if c = Char.ofNat 13 then ['\\', 'r']
  else if c = Char.ofNat 9 then ['\\', 't']
  else if c.toNat < 32 then
    ['\\', 'u', '0', '0', crypto.hexDigitChar (c.toNat / 16), crypto.hexDigitChar (c.toNat % 16)]
  else if c = '<' then ['\\', 'u', '0', '0', '3', 'c']
  else if c = '>' then ['\\', 'u', '0', '0', '3', 'e']
  else if c = '&' then ['\\', 'u', '0', '0', '2', '6']
  else if c.toNat = 8232 then ['\\', 'u', '2', '0', '2', '8']
  else if c.toNat = 8233 then ['\\', 'u', '2', '0', '2', '9']
  else [c]

/-- Go json escaping of a whole string body. -/
def escapeString (l : List Char) : List Char := l.flatMap escapeChar

/-- json.Marshal of struct{Name string `json:"name"`} as CreateDirectory
builds it (cloud.go lines 244-250). -/
def marshalName (name : String) : String :=
  String.mk ([obrace, '"', 'n', 'a', 'm', 'e', '"', ':', '"'] ++
    escapeString name.data ++ ['"', cbrace])

/-! ## Metadata cryptography (symbolic model)

The crypto package's metadata encryption is not under src/; per §4.2/§4.3
of the spec it is an authenticated scheme whose only observable behavior
here is: decryption succeeds exactly under the key that encrypted, and
multi-key decryption tries the ordered key set. It is modelled
symbolically. -/

/-- A metadata ciphertext, remembering the plaintext and the key that
produced it (symbolic authenticated encryption). -/
structure EncryptedString where
  plain : String
  key : String
deriving DecidableEq

/-- Modelled from the spec (§4.2): crypto.EncryptMetadata (absent from
src/) encrypts a short string under one key; the ciphertext is
self-describing and decryptable exactly under that key. -/
def EncryptMetadata (plaintext : String) (key : String) : EncryptedString :=
  ⟨plaintext, key⟩

/-- Modelled from the spec (§4.2): crypto.DecryptMetadata (absent from
src/) fails with DecryptionFailed unless the key matches. -/
def DecryptMetadata (c : EncryptedString) (key : String) : Except String String :=
  if c.key = key then Except.ok c.plain else Except.error "DecryptionFailed"

/-- Modelled from the spec (§4.3): crypto.DecryptMetadataAllKeys (absent
from src/) tries DecryptMetadata with each key in order and returns the
first success, failing with NoMatchingKey only if every key fails. -/
def DecryptMetadataAllKeys (c : EncryptedString) : List String → Except String String
  | [] => Except.error "NoMatchingKey"
  | k :: rest =>
    match DecryptMetadata c k with
    | Except.ok p => Except.ok p
    | Except.error _ => DecryptMetadataAllKeys c rest

namespace filen

/-- An upload (file) entry of a remote directory listing (§6). -/
structure UploadEntry where
  uuid : String
  metadata : EncryptedString
  timestamp : Int
  parent : String
  favorited : Nat
  region : String
  bucket : String
  chunks : Nat
deriving DecidableEq

/-- A folder entry of a remote directory listing (§6); nameHashed is the
lookup token the server stored when the folder was created. -/
structure FolderEntry where
  uuid : String
  name : EncryptedString
  parent : String
  timestamp : Int
  favorited : Nat
  nameHashed : String
deriving DecidableEq

/-- A remote directory listing: Uploads and Folders (§6). -/
structure DirectoryContent where
  uploads : List UploadEntry
  folders : List FolderEntry
deriving DecidableEq

/-- Modelled from the spec (§6): the remote session state consumed by the
core — the account root identifier and the flat UUID-keyed parent/child
store — plus a counter standing for the uuid.New() fresh-identifier source
and the clock read by time.Now(). -/
structure Remote where
  baseFolderUUID : String
  contents : List (String × DirectoryContent)
  nextUuid : Nat
  now : Int
deriving DecidableEq

/-- Modelled from the spec (§4.7): uuid.New() generates a fresh random
identifier; modelled as counter-indexed strings, injective by length. -/
def freshUuid (n : Nat) : String := String.mk (List.replicate (n + 1) 'u')

/-- Look up a directory's stored listing (first match wins). -/
def getContent (r : Remote) (u : String) : Option DirectoryContent :=
  (r.contents.find? (fun p => p.1 == u)).map (fun p => p.2)

/-- Modelled from the spec (§6): the GetDirectoryContent endpoint; unknown
identifiers are a transport-level error. -/
def Remote.getDirectoryContent (r : Remote) (u : String) : Except String DirectoryContent :=
  match getContent r u with
  | some c => Except.ok c
  | none => Except.error ("directory not found: " ++ u)

/-- The client session handle: the ordered master key set of the account. -/
structure Filen where
  masterKeys : List String
deriving DecidableEq

/-- Modelled from the spec (§3): the current master key is the last element
of the ordered key set (declared in the repository outside src/). -/
def Filen.CurrentMasterKey (f : Filen) : String := f.masterKeys.getLastD ""

/-- GetBaseFolderUUID (cloud.go line 42): fetches the root directory UUID. -/
def Filen.GetBaseFolderUUID (_ : Filen) (r : Remote) : String := r.baseFolderUUID

/-- File as returned to callers (cloud.go lines 16-29). -/
structure File where
  UUID : String
  Name : String
  Size : Int
  MimeType : String
  EncryptionKey : String
  Created : Int
  LastModified : Int
  ParentUUID : String
  Favorited : Bool
  Region : String
  Bucket : String
  Chunks : Nat
deriving DecidableEq

/-- Directory as returned to callers (cloud.go lines 32-39). -/
structure Directory where
  UUID : String
  Name : String
  ParentUUID : String
  Color : String
  Created : Int
  Favorited : Bool
deriving DecidableEq

/-- Modelled from the spec (§6): util.TimestampToTime (absent from src/)
converts an integer epoch value to the local time representation; modelled
as the epoch value itself. -/
def TimestampToTime (n : Int) : Int := n

/-- The file-transformation loop of ReadDirectory (cloud.go 172-204):
decrypt each upload's metadata against all keys, unmarshal it, and build
the File record; the first failure aborts. -/
def transformUploads (keys : List String) : List UploadEntry → Except String (List File)
  | [] => Except.ok []
  | e :: rest =>
    match DecryptMetadataAllKeys e.metadata keys with
    | Except.error err => Except.error err
    | Except.ok metadataStr =>
      match parseFileMetadata metadataStr with
      | Except.error err => Except.error err
      | Except.ok m =>
        match transformUploads keys rest with
        | Except.error err => Except.error err
        | Except.ok files =>
          Except.ok (⟨e.uuid, m.name, m.size, m.mime, m.key, TimestampToTime e.timestamp,
            TimestampToTime m.lastModified, e.parent, e.favorited == 1, e.region, e.bucket,
            e.chunks⟩ :: files)

/-- The folder-transformation loop of ReadDirectory (cloud.go 207-229);
the Color field is left as the placeholder the source uses. -/
def transformFolders (keys : List String) : List FolderEntry → Except String (List Directory)
  | [] => Except.ok []
  | e :: rest =>
    match DecryptMetadataAllKeys e.name keys with
    | Except.error err => Except.error err
    | Except.ok nameStr =>
      match parseDirectoryName nameStr with
      | Except.error err => Except.error err
      | Except.ok name =>
        match transformFolders keys rest with
        | Except.error err => Except.error err
        | Except.ok dirs =>
          Except.ok (⟨e.uuid, name, e.parent, "<none>", TimestampToTime e.timestamp,
            e.favorited == 1⟩ :: dirs)

/-- ReadDirectory (cloud.go 163-232): fetch a listing and decrypt every
child, failing wholesale on the first undecryptable or unparsable entry. -/
def ReadDirectory (f : Filen) (r : Remote) (uuid : String) :
    Except String (List File × List Directory) :=
  match Remote.getDirectoryContent r uuid with
  | Except.error e => Except.error e
  | Except.ok c =>
    match transformUploads f.masterKeys c.uploads with
    | Except.error e => Except.error e
    | Except.ok files =>
      match transformFolders f.masterKeys c.folders with
      | Except.error e => Except.error e
      | Except.ok dirs => Except.ok (files, dirs)

/-- Go strings.Split(path, "/"), accumulated segment by segment. -/
def splitPathAux (cur : List Char) : List Char → List (List Char)
  | [] => [cur.reverse]
  | c :: rest =>
    if c = '/' then cur.reverse :: splitPathAux [] rest else splitPathAux (c :: cur) rest

/-- Go strings.Split(path, "/"). -/
def splitPath (l : List Char) : List (List Char) := splitPathAux [] l

/-- The segment walk of FindItem (cloud.go 90-118). Empty segments are
skipped; the Go loop treats the segment at index len-1 — empty remainder
here — as final. The file scan mirrors the source exactly, including its
lack of a final-segment test. -/
def findItemLoop (f : Filen) (r : Remote) (requireDirectory : Bool) :
    String → List (List Char) → Except String (Option File × Option Directory)
  | _, [] => Except.error "unreachable"
  | currentUUID, seg :: rest =>
    if seg.isEmpty then findItemLoop f r requireDirectory currentUUID rest
    else
      match ReadDirectory f r currentUUID with
      | Except.error e => Except.error e
      | Except.ok (files, dirs) =>
        match (if requireDirectory then none
               else files.find? (fun fl => fl.Name == String.mk seg)) with
        | some fl => Except.ok (some fl, none)
        | none =>
          match dirs.find? (fun d => d.Name == String.mk seg) with
          | some d =>
            if rest.isEmpty then Except.ok (none, some d)
            else findItemLoop f r requireDirectory d.UUID rest
          | none => Except.ok (none, none)

/-- FindItem (cloud.go 78-120). -/
def FindItem (f : Filen) (r : Remote) (path : String) (requireDirectory : Bool) :
    Except String (Option File × Option Directory) :=
  let segments := splitPath path.data
  if segments.flatten.isEmpty then Except.error ("no segments in path " ++ path)
  else findItemLoop f r requireDirectory (f.GetBaseFolderUUID r) segments

/-- FindItemUUID (cloud.go 53-73). -/
def FindItemUUID (f : Filen) (r : Remote) (path : String) (requireDirectory : Bool) :
    Except String String :=
  if (splitPath path.data).flatten.isEmpty then Except.ok (f.GetBaseFolderUUID r)
  else
    match FindItem f r path requireDirectory with
    | Except.error e => Except.error e
    | Except.ok (some fl, _) => Except.ok fl.UUID
    | Except.ok (none, some d) => Except.ok d.UUID
    | Except.ok (none, none) => Except.ok ""

/-- CreateDirectory (cloud.go 239-272) together with the remote create call
(§6): a fresh identifier is drawn, the name metadata is encrypted under the
current master key, the name lookup hash is computed, and the server
records the new folder under its parent with the new directory empty. -/
def CreateDirectory (f : Filen) (r : Remote) (parentUUID name : String) :
    Except String (Directory × Remote) :=
  let directoryUUID := freshUuid r.nextUuid
  let metadataEncrypted := EncryptMetadata (marshalName name) f.CurrentMasterKey
  let nameHashed := crypto.hexEncode (crypto.RunSHA521 (crypto.utf8Bytes name))
  match getContent r parentUUID with
  | none => Except.error ("directory not found: " ++ parentUUID)
  | some c =>
    let entry : FolderEntry := ⟨directoryUUID, metadataEncrypted, parentUUID, r.now, 0, nameHashed⟩
    let r' : Remote := ⟨r.baseFolderUUID,
      (directoryUUID, ⟨[], []⟩) :: (parentUUID, ⟨c.uploads, c.folders ++ [entry]⟩) :: r.contents,
      r.nextUuid + 1, r.now⟩
    Except.ok (⟨directoryUUID, name, parentUUID, "", r.now, false⟩, r')

/-- The segment walk of FindDirectoryOrCreate (cloud.go 136-159): find a
directory child by name or create it, then continue into it. The remote
state is threaded through creations. -/
def findDirectoryOrCreateLoop (f : Filen) :
    String → Remote → List (List Char) → Except String (String × Remote)
  | currentUUID, r, [] => Except.ok (currentUUID, r)
  | currentUUID, r, seg :: rest =>
    if seg.isEmpty then findDirectoryOrCreateLoop f currentUUID r rest
    else
      match ReadDirectory f r currentUUID with
      | Except.error e => Except.error e
      | Except.ok (_, dirs) =>
        match dirs.find? (fun d => d.Name == String.mk seg) with
        | some d => findDirectoryOrCreateLoop f d.UUID r rest
        | none =>
          match CreateDirectory f r currentUUID (String.mk seg) with
          | Except.error e => Except.error e
          | Except.ok (d, r') => findDirectoryOrCreateLoop f d.UUID r' rest

/-- FindDirectoryOrCreate (cloud.go 124-161). -/
def FindDirectoryOrCreate (f : Filen) (r : Remote) (path : String) :
    Except String (String × Remote) :=
  let segments := splitPath path.data
  if segments.flatten.isEmpty then Except.ok (f.GetBaseFolderUUID r, r)
  else findDirectoryOrCreateLoop f (f.GetBaseFolderUUID r) r segments

end filen

/-! ## Length facts about the hash layer -/

namespace crypto

theorem length_natToBytesBE (k n : Nat) : (natToBytesBE k n).length = k := by
  induction k generalizing n with
  | zero => rfl
  | succ k ih => simp [natToBytesBE, ih]

theorem length_wordToBytes (n : Nat) : (wordToBytes n).length = 8 :=
  length_natToBytesBE 8 n

theorem length_sha512Round (st : List Nat) (kw : Nat × Nat) :
    (sha512Round st kw).length = 8 := rfl

theorem length_foldl_sha512Round (l : List (Nat × Nat)) (st : List Nat) (h : st.length = 8) :
    (l.foldl sha512Round st).length = 8 := by
  induction l generalizing st with
  | nil => exact h
  | cons a t ih => exact ih _ (length_sha512Round _ _)

theorem length_sha512Block (st block : List Nat) (h : st.length = 8) :
    (sha512Block st block).length = 8 := by
  unfold sha512Block
  rw [List.length_zipWith, length_foldl_sha512Round _ _ h, h]
  rfl

theorem length_foldl_sha512Block (bs : List (List Nat)) (st : List Nat) (h : st.length = 8) :
    (bs.foldl sha512Block st).length = 8 := by
  induction bs generalizing st with
  | nil => exact h
  | cons b t ih => exact ih _ (length_sha512Block _ _ h)

theorem length_flatMap_wordToBytes (l : List Nat) :
    (l.flatMap wordToBytes).length = 8 * l.length := by
  induction l with
  | nil => rfl
  | cons a t ih =>
    simp [List.flatMap_cons, length_wordToBytes, ih]
    ring

theorem length_sha512 (m : List Nat) : (sha512 m).length = 64 := by
  unfold sha512
  rw [length_flatMap_wordToBytes, length_foldl_sha512Block _ _ (by rfl)]

theorem length_hexEncode (l : List Nat) : (hexEncode l).length = 2 * l.length := by
  show (l.flatMap fun b => [hexDigitChar (b / 16 % 16), hexDigitChar (b % 16)]).length = 2 * l.length
  induction l with
  | nil => rfl
  | cons a t ih =>
    simp [List.flatMap_cons, ih]
    ring

theorem length_hmacSha512 (key msg : List Nat) : (hmacSha512 key msg).length = 64 := by
  unfold hmacSha512
  exact length_sha512 _

theorem length_pbkdf2Iter (p : List Nat) (k : Nat) (u acc : List Nat) (h : acc.length = 64) :
    (pbkdf2Iter p k u acc).length = 64 := by
  induction k generalizing u acc with
  | zero => exact h
  | succ k ih =>
    refine ih _ _ ?_
    unfold xorBytes
    rw [List.length_zipWith, h, length_hmacSha512]
    rfl

theorem length_pbkdf2BlockT (p s : List Nat) (c i : Nat) (hc : c ≠ 0) :
    (pbkdf2BlockT p s c i).length = 64 := by
  cases c with
  | zero => exact absurd rfl hc
  | succ c' => exact length_pbkdf2Iter _ _ _ _ (length_hmacSha512 _ _)

theorem length_DeriveKeyFromPassword (p s : String) :
    (DeriveKeyFromPassword p s 200000 512).length = 64 := by
  unfold DeriveKeyFromPassword pbkdf2Key
  rw [List.length_take]
  have h1 : List.range ((64 + 63) / 64) = [0] := rfl
  rw [h1]
  simp [length_pbkdf2BlockT _ _ 200000 1 (by decide)]

end crypto

/-! ## Key-set and symbolic-decryption lemmas -/

theorem mem_getLastD (l : List String) (d : String) (h : l ≠ []) : l.getLastD d ∈ l := by
  rw [List.getLastD_eq_getLast?, List.getLast?_eq_getLast l h]
  exact List.getLast_mem h

theorem decryptAll_ok_of_mem (c : EncryptedString) (keys : List String) (h : c.key ∈ keys) :
    DecryptMetadataAllKeys c keys = Except.ok c.plain := by
  induction keys with
  | nil => cases h
  | cons k rest ih =>
    by_cases hk : c.key = k
    · simp [DecryptMetadataAllKeys, DecryptMetadata, hk]
    · have hm : c.key ∈ rest := by
        cases h with
        | head => exact absurd rfl hk
        | tail _ hm => exact hm
      simp [DecryptMetadataAllKeys, DecryptMetadata, hk, ih hm]

namespace filen

theorem freshUuid_inj {m n : Nat} (h : freshUuid m = freshUuid n) : m = n := by
  have hd := congrArg String.data h
  have hl := congrArg List.length hd
  simpa [freshUuid] using hl

theorem currentKey_mem (f : Filen) (h : f.masterKeys ≠ []) :
    f.CurrentMasterKey ∈ f.masterKeys :=
  mem_getLastD _ _ h

end filen



/-! ## JSON marshal/parse roundtrip -/

theorem psb_lit (fuel : Nat) (c : Char) (r : List Char) (h1 : ¬c = '"') (h2 : ¬c = '\\') :
    parseStringBody (fuel + 1) (c :: r) = consParsed c (parseStringBody fuel r) := by
  show (if c = '"' then some ([], r)
    else if c = '\\' then
      (match r with
      | '"' :: r => consParsed '"' (parseStringBody fuel r)
      | '\\' :: r => consParsed '\\' (parseStringBody fuel r)
      | '/' :: r => consParsed '/' (parseStringBody fuel r)
      | 'b' :: r => consParsed (Char.ofNat 8) (parseStringBody fuel r)
      | 'f' :: r => consParsed (Char.ofNat 12) (parseStringBody fuel r)
      | 'n' :: r => consParsed (Char.ofNat 10) (parseStringBody fuel r)
      | 'r' :: r => consParsed (Char.ofNat 13) (parseStringBody fuel r)
      | 't' :: r => consParsed (Char.ofNat 9) (parseStringBody fuel r)
      | 'u' :: h1 :: h2 :: h3 :: h4 :: r =>
        match parseHexDigit h1 with
        | none => none
        | some k1 =>
          match parseHexDigit h2 with
          | none => none
          | some k2 =>
            match parseHexDigit h3 with
            | none => none
            | some k3 =>
              match parseHexDigit h4 with
              | none => none
              | some k4 =>
                let n := k1 * 4096 + k2 * 256 + k3 * 16 + k4
                if n < 55296 ∨ (57344 ≤ n ∧ n < 1114112) then
                  consParsed (Char.ofNat n) (parseStringBody fuel r)
                else none
      | _ => none)
    else consParsed c (parseStringBody fuel r)) = consParsed c (parseStringBody fuel r)
  rw [if_neg h1, if_neg h2]

theorem psb_end (fuel : Nat) (r : List Char) :
    parseStringBody (fuel + 1) ('"' :: r) = some ([], r) := rfl

theorem psb_esc_quote (fuel : Nat) (r : List Char) :
    parseStringBody (fuel + 1) ('\\' :: '"' :: r) = consParsed '"' (parseStringBody fuel r) := rfl

theorem psb_esc_back (fuel : Nat) (r : List Char) :
    parseStringBody (fuel + 1) ('\\' :: '\\' :: r) = consParsed '\\' (parseStringBody fuel r) := rfl

theorem psb_esc_n (fuel : Nat) (r : List Char) :
    parseStringBody (fuel + 1) ('\\' :: 'n' :: r) =
      consParsed (Char.ofNat 10) (parseStringBody fuel r) := rfl

theorem psb_esc_r (fuel : Nat) (r : List Char) :
    parseStringBody (fuel + 1) ('\\' :: 'r' :: r) =
      consParsed (Char.ofNat 13) (parseStringBody fuel r) := rfl

theorem psb_esc_t (fuel : Nat) (r : List Char) :
    parseStringBody (fuel + 1) ('\\' :: 't' :: r) =
      consParsed (Char.ofNat 9) (parseStringBody fuel r) := rfl

theorem psb_esc_u003c (fuel : Nat) (r : List Char) :
    parseStringBody (fuel + 1) ('\\' :: 'u' :: '0' :: '0' :: '3' :: 'c' :: r) =
      consParsed '<' (parseStringBody fuel r) := rfl

theorem psb_esc_u003e (fuel : Nat) (r : List Char) :
    parseStringBody (fuel + 1) ('\\' :: 'u' :: '0' :: '0' :: '3' :: 'e' :: r) =
      consParsed '>' (parseStringBody fuel r) := rfl

theorem psb_esc_u0026 (fuel : Nat) (r : List Char) :
    parseStringBody (fuel + 1) ('\\' :: 'u' :: '0' :: '0' :: '2' :: '6' :: r) =
      consParsed '&' (parseStringBody fuel r) := rfl

theorem psb_esc_u2028 (fuel : Nat) (r : List Char) :
    parseStringBody (fuel + 1) ('\\' :: 'u' :: '2' :: '0' :: '2' :: '8' :: r) =
      consParsed (Char.ofNat 8232) (parseStringBody fuel r) := rfl

theorem psb_esc_u2029 (fuel : Nat) (r : List Char) :
    parseStringBody (fuel + 1) ('\\' :: 'u' :: '2' :: '0' :: '2' :: '9' :: r) =
      consParsed (Char.ofNat 8233) (parseStringBody fuel r) := rfl

theorem parseHexDigit_hexDigitChar (k : Nat) (h : k < 16) :
    parseHexDigit (crypto.hexDigitChar k) = some k := by
  interval_cases k <;> decide

theorem psb_esc_u00 (fuel q w : Nat) (hq : q < 16) (hw : w < 16) (r : List Char) :
    parseStringBody (fuel + 1) ('\\' :: 'u' :: '0' :: '0' :: crypto.hexDigitChar q ::
      crypto.hexDigitChar w :: r) =
      consParsed (Char.ofNat (q * 16 + w)) (parseStringBody fuel r) := by
  have hv : (0 : Nat) * 4096 + 0 * 256 + q * 16 + w < 55296 ∨
      (57344 ≤ 0 * 4096 + 0 * 256 + q * 16 + w ∧ 0 * 4096 + 0 * 256 + q * 16 + w < 1114112) :=
    Or.inl (by omega)
  show (match parseHexDigit (crypto.hexDigitChar q) with
    | none => none
    | some k3 =>
      match parseHexDigit (crypto.hexDigitChar w) with
      | none => none
      | some k4 =>
        let n := 0 * 4096 + 0 * 256 + k3 * 16 + k4
        if n < 55296 ∨ (57344 ≤ n ∧ n < 1114112) then
          consParsed (Char.ofNat n) (parseStringBody fuel r)
        else none) = consParsed (Char.ofNat (q * 16 + w)) (parseStringBody fuel r)
  rw [parseHexDigit_hexDigitChar _ hq, parseHexDigit_hexDigitChar _ hw]
  show (if 0 * 4096 + 0 * 256 + q * 16 + w < 55296 ∨
      (57344 ≤ 0 * 4096 + 0 * 256 + q * 16 + w ∧ 0 * 4096 + 0 * 256 + q * 16 + w < 1114112) then
      consParsed (Char.ofNat (0 * 4096 + 0 * 256 + q * 16 + w)) (parseStringBody fuel r)
    else none) = _
  rw [if_pos hv]
  have he : 0 * 4096 + 0 * 256 + q * 16 + w = q * 16 + w := by omega
  rw [he]

theorem escapeChar_length_pos (c : Char) : 1 ≤ (escapeChar c).length := by
  by_cases h1 : c = '"'
  · subst h1; decide
  by_cases h2 : c = '\\'
  · subst h2; decide
  by_cases h3 : c = Char.ofNat 10
  · subst h3; decide
  by_cases h4 : c = Char.ofNat 13
  · subst h4; decide
  by_cases h5 : c = Char.ofNat 9
  · subst h5; decide
  by_cases h6 : c.toNat < 32
  · have hesc : escapeChar c = ['\\', 'u', '0', '0',
        crypto.hexDigitChar (c.toNat / 16), crypto.hexDigitChar (c.toNat % 16)] := by
      unfold escapeChar
      rw [if_neg h1, if_neg h2, if_neg h3, if_neg h4, if_neg h5, if_pos h6]
    rw [hesc]
    simp only [List.length_cons, List.length_nil]
    omega
  by_cases h7 : c = '<'
  · subst h7; decide
  by_cases h8 : c = '>'
  · subst h8; decide
  by_cases h9 : c = '&'
  · subst h9; decide
  by_cases h10 : c.toNat = 8232
  · have hesc : escapeChar c = ['\\', 'u', '2', '0', '2', '8'] := by
      unfold escapeChar
      rw [if_neg h1, if_neg h2, if_neg h3, if_neg h4, if_neg h5, if_neg h6, if_neg h7,
        if_neg h8, if_neg h9, if_pos h10]
    rw [hesc]; decide
  by_cases h11 : c.toNat = 8233
  · have hesc : escapeChar c = ['\\', 'u', '2', '0', '2', '9'] := by
      unfold escapeChar
      rw [if_neg h1, if_neg h2, if_neg h3, if_neg h4, if_neg h5, if_neg h6, if_neg h7,
        if_neg h8, if_neg h9, if_neg h10, if_pos h11]
    rw [hesc]; decide
  · have hesc : escapeChar c = [c] := by
      unfold escapeChar
      rw [if_neg h1, if_neg h2, if_neg h3, if_neg h4, if_neg h5, if_neg h6, if_neg h7,
        if_neg h8, if_neg h9, if_neg h10, if_neg h11]
    rw [hesc]
    simp only [List.length_cons, List.length_nil]
    omega

theorem length_le_escapeString (l : List Char) : l.length ≤ (escapeString l).length := by
  induction l with
  | nil => simp [escapeString]
  | cons c t ih =>
    have h1 := escapeChar_length_pos c
    simp only [escapeString, List.flatMap_cons, List.length_append, List.length_cons]
    simp only [escapeString] at ih
    omega

theorem parseStringBody_escape (fuel : Nat) (l rest : List Char) (h : l.length + 1 ≤ fuel) :
    parseStringBody fuel (escapeString l ++ '"' :: rest) = some (l, rest) := by
  induction l generalizing fuel with
  | nil =>
    match fuel, h with
    | f + 1, _ => exact psb_end f rest
  | cons c t ih =>
    match fuel, h with
    | f + 1, h =>
      have hf : t.length + 1 ≤ f := by
        simp only [List.length_cons] at h
        omega
      have hsplit : escapeString (c :: t) ++ '"' :: rest =
          escapeChar c ++ (escapeString t ++ '"' :: rest) := by
        simp [escapeString, List.flatMap_cons, List.append_assoc]
      rw [hsplit]
      by_cases h1 : c = '"'
      · subst h1
        show parseStringBody (f + 1) ('\\' :: '"' :: (escapeString t ++ '"' :: rest)) = _
        rw [psb_esc_quote, ih f hf]; rfl
      · by_cases h2 : c = '\\'
        · subst h2
          show parseStringBody (f + 1) ('\\' :: '\\' :: (escapeString t ++ '"' :: rest)) = _
          rw [psb_esc_back, ih f hf]; rfl
        · by_cases h3 : c = Char.ofNat 10
          · subst h3
            show parseStringBody (f + 1) ('\\' :: 'n' :: (escapeString t ++ '"' :: rest)) = _
            rw [psb_esc_n, ih f hf]; rfl
          · by_cases h4 : c = Char.ofNat 13
            · subst h4
              show parseStringBody (f + 1) ('\\' :: 'r' :: (escapeString t ++ '"' :: rest)) = _
              rw [psb_esc_r, ih f hf]; rfl
            · by_cases h5 : c = Char.ofNat 9
              · subst h5
                show parseStringBody (f + 1) ('\\' :: 't' :: (escapeString t ++ '"' :: rest)) = _
                rw [psb_esc_t, ih f hf]; rfl
              · by_cases h6 : c.toNat < 32
                · have hq : c.toNat / 16 < 16 := by omega
                  have hw : c.toNat % 16 < 16 := by omega
                  have hesc : escapeChar c = ['\\', 'u', '0', '0',
                      crypto.hexDigitChar (c.toNat / 16), crypto.hexDigitChar (c.toNat % 16)] := by
                    unfold escapeChar
                    rw [if_neg h1, if_neg h2, if_neg h3, if_neg h4, if_neg h5, if_pos h6]
                  rw [hesc]
                  show parseStringBody (f + 1) ('\\' :: 'u' :: '0' :: '0' ::
                    crypto.hexDigitChar (c.toNat / 16) :: crypto.hexDigitChar (c.toNat % 16) ::
                    (escapeString t ++ '"' :: rest)) = _
                  rw [psb_esc_u00 f _ _ hq hw, ih f hf]
                  have hc : c.toNat / 16 * 16 + c.toNat % 16 = c.toNat := by omega
                  rw [hc, Char.ofNat_toNat]
                  rfl
                · by_cases h7 : c = '<'
                  · subst h7
                    have hesc : escapeChar '<' = ['\\', 'u', '0', '0', '3', 'c'] := by decide
                    rw [hesc]
                    show parseStringBody (f + 1)
                      ('\\' :: 'u' :: '0' :: '0' :: '3' :: 'c' :: (escapeString t ++ '"' :: rest)) = _
                    rw [psb_esc_u003c, ih f hf]; rfl
                  · by_cases h8 : c = '>'
                    · subst h8
                      have hesc : escapeChar '>' = ['\\', 'u', '0', '0', '3', 'e'] := by decide
                      rw [hesc]
                      show parseStringBody (f + 1)
                        ('\\' :: 'u' :: '0' :: '0' :: '3' :: 'e' :: (escapeString t ++ '"' :: rest)) = _
                      rw [psb_esc_u003e, ih f hf]; rfl
                    · by_cases h9 : c = '&'
                      · subst h9
                        have hesc : escapeChar '&' = ['\\', 'u', '0', '0', '2', '6'] := by decide
                        rw [hesc]
                        show parseStringBody (f + 1)
                          ('\\' :: 'u' :: '0' :: '0' :: '2' :: '6' :: (escapeString t ++ '"' :: rest)) = _
                        rw [psb_esc_u0026, ih f hf]; rfl
                      · by_cases h10 : c.toNat = 8232
                        · have hcc : Char.ofNat 8232 = c := by rw [← h10]; exact Char.ofNat_toNat c
                          have hesc : escapeChar c = ['\\', 'u', '2', '0', '2', '8'] := by
                            unfold escapeChar
                            rw [if_neg h1, if_neg h2, if_neg h3, if_neg h4, if_neg h5, if_neg h6,
                              if_neg h7, if_neg h8, if_neg h9, if_pos h10]
                          rw [hesc]
                          show parseStringBody (f + 1)
                            ('\\' :: 'u' :: '2' :: '0' :: '2' :: '8' :: (escapeString t ++ '"' :: rest)) = _
                          rw [psb_esc_u2028, ih f hf, hcc]; rfl
                        · by_cases h11 : c.toNat = 8233
                          · have hcc : Char.ofNat 8233 = c := by rw [← h11]; exact Char.ofNat_toNat c
                            have hesc : escapeChar c = ['\\', 'u', '2', '0', '2', '9'] := by
                              unfold escapeChar
                              rw [if_neg h1, if_neg h2, if_neg h3, if_neg h4, if_neg h5, if_neg h6,
                                if_neg h7, if_neg h8, if_neg h9, if_neg h10, if_pos h11]
                            rw [hesc]
                            show parseStringBody (f + 1)
                              ('\\' :: 'u' :: '2' :: '0' :: '2' :: '9' :: (escapeString t ++ '"' :: rest)) = _
                            rw [psb_esc_u2029, ih f hf, hcc]; rfl
                          · have hesc : escapeChar c = [c] := by
                              unfold escapeChar
                              rw [if_neg h1, if_neg h2, if_neg h3, if_neg h4, if_neg h5, if_neg h6,
                                if_neg h7, if_neg h8, if_neg h9, if_neg h10, if_neg h11]
                            rw [hesc]
                            show parseStringBody (f + 1) (c :: (escapeString t ++ '"' :: rest)) = _
                            rw [psb_lit f c _ h1 h2, ih f hf]; rfl

theorem parseValue_str (g : Nat) (s : String) (tail : List Char) :
    parseValue (g + 1) ('"' :: (escapeString s.data ++ '"' :: tail)) =
      some (Json.str s, tail) := by
  have hstep : parseValue (g + 1) ('"' :: (escapeString s.data ++ '"' :: tail)) =
      (parseStringBody ((escapeString s.data ++ '"' :: tail).length + 1)
        (escapeString s.data ++ '"' :: tail)).map
        (fun p => (Json.str (String.mk p.1), p.2)) := rfl
  have hcond : s.data.length + 1 ≤ (escapeString s.data ++ '"' :: tail).length + 1 := by
    have := length_le_escapeString s.data
    simp only [List.length_append, List.length_cons]
    omega
  rw [hstep, parseStringBody_escape _ _ _ hcond]
  rfl

theorem parseValue_marshalName (g : Nat) (s : String) :
    parseValue (g + 3) (marshalName s).data = some (Json.obj [("name", Json.str s)], []) := by
  have hstep : parseValue (g + 3) (marshalName s).data =
      (match parseValue (g + 1) ('"' :: (escapeString s.data ++ '"' :: [cbrace])) with
       | none => none
       | some (v, r3) =>
         match skipWs r3 with
         | [] => none
         | c :: r4 =>
           if c = ',' then parseObjRest (g + 1) [(String.mk ['n', 'a', 'm', 'e'], v)] (skipWs r4)
           else if c = cbrace then
             some (Json.obj [(String.mk ['n', 'a', 'm', 'e'], v)], r4)
           else none) := rfl
  rw [hstep, parseValue_str g s [cbrace]]
  rfl

theorem parseJson_marshalName (s : String) :
    parseJson (marshalName s) = some (Json.obj [("name", Json.str s)]) := by
  unfold parseJson
  rw [parseValue_marshalName ((marshalName s).data.length) s]
  rfl

theorem parseDirectoryName_marshalName (s : String) :
    parseDirectoryName (marshalName s) = Except.ok s := by
  unfold parseDirectoryName
  rw [parseJson_marshalName]
  simp [decodeNameFields, setStringField]

/-! ## ReadDirectory decomposition lemmas -/

namespace filen

theorem ReadDirectory_ok_inv (f : Filen) (r : Remote) (u : String) (files : List File)
    (dirs : List Directory) (h : ReadDirectory f r u = Except.ok (files, dirs)) :
    ∃ c, getContent r u = some c ∧
      transformUploads f.masterKeys c.uploads = Except.ok files ∧
      transformFolders f.masterKeys c.folders = Except.ok dirs := by
  cases hg : getContent r u with
  | none => simp [ReadDirectory, Remote.getDirectoryContent, hg] at h
  | some c =>
    refine ⟨c, rfl, ?_⟩
    cases hu : transformUploads f.masterKeys c.uploads with
    | error e => simp [ReadDirectory, Remote.getDirectoryContent, hg, hu] at h
    | ok fl =>
      cases hd : transformFolders f.masterKeys c.folders with
      | error e => simp [ReadDirectory, Remote.getDirectoryContent, hg, hu, hd] at h
      | ok dl =>
        simp [ReadDirectory, Remote.getDirectoryContent, hg, hu, hd] at h
        exact ⟨by rw [h.1], by rw [h.2]⟩

theorem ReadDirectory_ok_of (f : Filen) (r : Remote) (u : String) (c : DirectoryContent)
    (files : List File) (dirs : List Directory) (hg : getContent r u = some c)
    (hu : transformUploads f.masterKeys c.uploads = Except.ok files)
    (hd : transformFolders f.masterKeys c.folders = Except.ok dirs) :
    ReadDirectory f r u = Except.ok (files, dirs) := by
  simp [ReadDirectory, Remote.getDirectoryContent, hg, hu, hd]

theorem transformFolders_append (keys : List String) (l1 l2 : List FolderEntry)
    (d1 d2 : List Directory) (h1 : transformFolders keys l1 = Except.ok d1)
    (h2 : transformFolders keys l2 = Except.ok d2) :
    transformFolders keys (l1 ++ l2) = Except.ok (d1 ++ d2) := by
  induction l1 generalizing d1 with
  | nil =>
    simp only [transformFolders] at h1
    cases h1
    simpa using h2
  | cons e t ih =>
    cases hdec : DecryptMetadataAllKeys e.name keys with
    | error m => simp [transformFolders, hdec] at h1
    | ok ns =>
      cases hp : parseDirectoryName ns with
      | error m => simp [transformFolders, hdec, hp] at h1
      | ok nm =>
        cases ht : transformFolders keys t with
        | error m => simp [transformFolders, hdec, hp, ht] at h1
        | ok ds =>
          simp only [transformFolders, hdec, hp, ht] at h1
          cases h1
          have happ := ih ds ht
          simp only [List.cons_append, transformFolders, hdec, hp]
          rw [show transformFolders keys (t.append l2) = Except.ok (ds ++ d2) from happ]

theorem transformFolders_single (keys : List String) (u p : String) (t : Int) (hsh : String)
    (s k : String) (hk : k ∈ keys) :
    transformFolders keys [⟨u, EncryptMetadata (marshalName s) k, p, t, 0, hsh⟩] =
      Except.ok [⟨u, s, p, "<none>", t, false⟩] := by
  have hd : DecryptMetadataAllKeys (EncryptMetadata (marshalName s) k) keys =
      Except.ok (marshalName s) := decryptAll_ok_of_mem _ keys hk
  simp [transformFolders, hd, parseDirectoryName_marshalName, TimestampToTime]

theorem transformUploads_error_decrypt (keys : List String) (l : List UploadEntry)
    (e : UploadEntry) (m : String) (he : e ∈ l)
    (hd : DecryptMetadataAllKeys e.metadata keys = Except.error m) :
    ∃ msg, transformUploads keys l = Except.error msg := by
  induction l with
  | nil => cases he
  | cons a t ih =>
    cases hdec : DecryptMetadataAllKeys a.metadata keys with
    | error m2 => exact ⟨m2, by simp [transformUploads, hdec]⟩
    | ok pt =>
      have hat : e ∈ t := by
        cases he with
        | head => rw [hdec] at hd; cases hd
        | tail _ hm => exact hm
      cases hp : parseFileMetadata pt with
      | error m2 => exact ⟨m2, by simp [transformUploads, hdec, hp]⟩
      | ok fm =>
        obtain ⟨msg, hmsg⟩ := ih hat
        exact ⟨msg, by simp [transformUploads, hdec, hp, hmsg]⟩

theorem transformUploads_error_parse (keys : List String) (l : List UploadEntry)
    (e : UploadEntry) (pt m : String) (he : e ∈ l)
    (hd : DecryptMetadataAllKeys e.metadata keys = Except.ok pt)
    (hp : parseFileMetadata pt = Except.error m) :
    ∃ msg, transformUploads keys l = Except.error msg := by
  induction l with
  | nil => cases he
  | cons a t ih =>
    cases hdec : DecryptMetadataAllKeys a.metadata keys with
    | error m2 => exact ⟨m2, by simp [transformUploads, hdec]⟩
    | ok pt2 =>
      cases hp2 : parseFileMetadata pt2 with
      | error m2 => exact ⟨m2, by simp [transformUploads, hdec, hp2]⟩
      | ok fm =>
        have hat : e ∈ t := by
          cases he with
          | head =>
            rw [hdec] at hd
            cases hd
            rw [hp2] at hp
            cases hp
          | tail _ hm => exact hm
        obtain ⟨msg, hmsg⟩ := ih hat
        exact ⟨msg, by simp [transformUploads, hdec, hp2, hmsg]⟩

theorem transformFolders_error_decrypt (keys : List String) (l : List FolderEntry)
    (e : FolderEntry) (m : String) (he : e ∈ l)
    (hd : DecryptMetadataAllKeys e.name keys = Except.error m) :
    ∃ msg, transformFolders keys l = Except.error msg := by
  induction l with
  | nil => cases he
  | cons a t ih =>
    cases hdec : DecryptMetadataAllKeys a.name keys with
    | error m2 => exact ⟨m2, by simp [transformFolders, hdec]⟩
    | ok ns =>
      have hat : e ∈ t := by
        cases he with
        | head => rw [hdec] at hd; cases hd
        | tail _ hm => exact hm
      cases hp : parseDirectoryName ns with
      | error m2 => exact ⟨m2, by simp [transformFolders, hdec, hp]⟩
      | ok nm =>
        obtain ⟨msg, hmsg⟩ := ih hat
        exact ⟨msg, by simp [transformFolders, hdec, hp, hmsg]⟩

theorem transformFolders_error_parse (keys : List String) (l : List FolderEntry)
    (e : FolderEntry) (pt m : String) (he : e ∈ l)
    (hd : DecryptMetadataAllKeys e.name keys = Except.ok pt)
    (hp : parseDirectoryName pt = Except.error m) :
    ∃ msg, transformFolders keys l = Except.error msg := by
  induction l with
  | nil => cases he
  | cons a t ih =>
    cases hdec : DecryptMetadataAllKeys a.name keys with
    | error m2 => exact ⟨m2, by simp [transformFolders, hdec]⟩
    | ok ns =>
      cases hp2 : parseDirectoryName ns with
      | error m2 => exact ⟨m2, by simp [transformFolders, hdec, hp2]⟩
      | ok nm =>
        have hat : e ∈ t := by
          cases he with
          | head =>
            rw [hdec] at hd
            cases hd
            rw [hp2] at hp
            cases hp
          | tail _ hm => exact hm
        obtain ⟨msg, hmsg⟩ := ih hat
        exact ⟨msg, by simp [transformFolders, hdec, hp2, hmsg]⟩

theorem transformUploads_uuids (keys : List String) (l : List UploadEntry)
    (files : List File) (h : transformUploads keys l = Except.ok files) :
    files.map File.UUID = l.map UploadEntry.uuid := by
  induction l generalizing files with
  | nil =>
    simp only [transformUploads] at h
    cases h
    rfl
  | cons a t ih =>
    cases hdec : DecryptMetadataAllKeys a.metadata keys with
    | error m => simp [transformUploads, hdec] at h
    | ok pt =>
      cases hp : parseFileMetadata pt with
      | error m => simp [transformUploads, hdec, hp] at h
      | ok fm =>
        cases ht : transformUploads keys t with
        | error m => simp [transformUploads, hdec, hp, ht] at h
        | ok fs =>
          simp only [transformUploads, hdec, hp, ht] at h
          cases h
          simp [ih fs ht]

theorem transformFolders_uuids (keys : List String) (l : List FolderEntry)
    (dirs : List Directory) (h : transformFolders keys l = Except.ok dirs) :
    dirs.map Directory.UUID = l.map FolderEntry.uuid := by
  induction l generalizing dirs with
  | nil =>
    simp only [transformFolders] at h
    cases h
    rfl
  | cons a t ih =>
    cases hdec : DecryptMetadataAllKeys a.name keys with
    | error m => simp [transformFolders, hdec] at h
    | ok ns =>
      cases hp : parseDirectoryName ns with
      | error m => simp [transformFolders, hdec, hp] at h
      | ok nm =>
        cases ht : transformFolders keys t with
        | error m => simp [transformFolders, hdec, hp, ht] at h
        | ok ds =>
          simp only [transformFolders, hdec, hp, ht] at h
          cases h
          simp [ih ds ht]

theorem transformFolders_mem_entry (keys : List String) (l : List FolderEntry)
    (dirs : List Directory) (d : Directory) (h : transformFolders keys l = Except.ok dirs)
    (hd : d ∈ dirs) : ∃ e, e ∈ l ∧ e.uuid = d.UUID := by
  induction l generalizing dirs with
  | nil =>
    simp only [transformFolders] at h
    cases h
    cases hd
  | cons a t ih =>
    cases hdec : DecryptMetadataAllKeys a.name keys with
    | error m => simp [transformFolders, hdec] at h
    | ok ns =>
      cases hp : parseDirectoryName ns with
      | error m => simp [transformFolders, hdec, hp] at h
      | ok nm =>
        cases ht : transformFolders keys t with
        | error m => simp [transformFolders, hdec, hp, ht] at h
        | ok ds =>
          simp only [transformFolders, hdec, hp, ht] at h
          cases h
          cases hd with
          | head => exact ⟨a, List.mem_cons_self a t, rfl⟩
          | tail _ hm =>
            obtain ⟨e, hel, heu⟩ := ih ds ht hm
            exact ⟨e, List.mem_cons_of_mem a hel, heu⟩

end filen

/-! ## Path splitting and loop normalization lemmas -/

namespace filen

theorem splitPathAux_no_slash (l : List Char) (acc : List Char) (h : '/' ∉ l) :
    splitPathAux acc l = [acc.reverse ++ l] := by
  induction l generalizing acc with
  | nil => simp [splitPathAux]
  | cons c t ih =>
    have hc : ¬c = '/' := fun he => h (he ▸ List.mem_cons_self c t)
    have ht : '/' ∉ t := fun hm => h (List.mem_cons_of_mem c hm)
    simp [splitPathAux, hc, ih _ ht]

theorem splitPath_no_slash (l : List Char) (h : '/' ∉ l) : splitPath l = [l] := by
  simpa [splitPath] using splitPathAux_no_slash l [] h

theorem flatten_ne_empty_of_filter (segs : List (List Char))
    (h : segs.filter (fun s => !s.isEmpty) ≠ []) : segs.flatten.isEmpty = false := by
  induction segs with
  | nil => exact absurd rfl h
  | cons s t ih =>
    cases hs : s with
    | nil =>
      subst hs
      have heq : (List.nil :: t).filter (fun s => !s.isEmpty) = t.filter (fun s => !s.isEmpty) := rfl
      rw [heq] at h
      simpa [List.flatten] using ih h
    | cons c cs => simp [List.flatten, hs, List.isEmpty]

theorem fdocLoop_filter (f : Filen) (segs : List (List Char)) :
    ∀ (cur : String) (r : Remote),
      findDirectoryOrCreateLoop f cur r segs =
        findDirectoryOrCreateLoop f cur r (segs.filter (fun s => !s.isEmpty)) := by
  induction segs with
  | nil => intro cur r; rfl
  | cons s t ih =>
    intro cur r
    by_cases hs : s.isEmpty
    · rw [List.filter_cons]
      simp only [hs, Bool.not_true, Bool.false_eq_true, if_false]
      rw [show findDirectoryOrCreateLoop f cur r (s :: t) =
        findDirectoryOrCreateLoop f cur r t by simp [findDirectoryOrCreateLoop, hs]]
      exact ih cur r
    · rw [List.filter_cons]
      simp only [hs, Bool.not_false, Bool.not_eq_true', if_pos]
      have hs' : s.isEmpty = false := by
        cases hb : s.isEmpty
        · rfl
        · exact absurd hb hs
      simp only [findDirectoryOrCreateLoop, hs', Bool.false_eq_true, if_false]
      cases hR : ReadDirectory f r cur with
      | error e => rfl
      | ok p =>
        obtain ⟨files, dirs⟩ := p
        simp only
        cases hf : dirs.find? (fun d => d.Name == String.mk s) with
        | some d => exact ih d.UUID r
        | none =>
          simp only
          cases hC : CreateDirectory f r cur (String.mk s) with
          | error e => rfl
          | ok p2 =>
            obtain ⟨d, r'⟩ := p2
            exact ih d.UUID r'

theorem getContent_cons (b k : String) (c : DirectoryContent)
    (rest : List (String × DirectoryContent)) (n : Nat) (nw : Int) (u : String) :
    getContent ⟨b, (k, c) :: rest, n, nw⟩ u =
      if k = u then some c else getContent ⟨b, rest, n, nw⟩ u := by
  by_cases h : k = u
  · simp [getContent, List.find?_cons, h]
  · simp only [getContent, List.find?_cons]
    have : (k == u) = false := by
      simp [h]
    simp [this, h]

theorem CreateDirectory_ok (f : Filen) (r : Remote) (parent name : String)
    (c : DirectoryContent) (hg : getContent r parent = some c) :
    CreateDirectory f r parent name = Except.ok
      (⟨freshUuid r.nextUuid, name, parent, "", r.now, false⟩,
       ⟨r.baseFolderUUID,
        (freshUuid r.nextUuid, ⟨[], []⟩) ::
          (parent, ⟨c.uploads, c.folders ++ [⟨freshUuid r.nextUuid,
            EncryptMetadata (marshalName name) f.CurrentMasterKey, parent, r.now, 0,
            crypto.hexEncode (crypto.RunSHA521 (crypto.utf8Bytes name))⟩]⟩) :: r.contents,
        r.nextUuid + 1, r.now⟩) := by
  simp [CreateDirectory, hg]

end filen

/-! ## The creation chain of FindDirectoryOrCreate -/

namespace filen

/-- The folder entry recorded by CreateDirectory for segment s under cur. -/
def createdEntry (f : Filen) (r : Remote) (cur : String) (s : List Char) : FolderEntry :=
  ⟨freshUuid r.nextUuid, EncryptMetadata (marshalName (String.mk s)) f.CurrentMasterKey, cur,
   r.now, 0, crypto.hexEncode (crypto.RunSHA521 (crypto.utf8Bytes (String.mk s)))⟩

/-- The remote state after CreateDirectory creates segment s under an empty
directory cur. -/
def createdState (f : Filen) (r : Remote) (cur : String) (s : List Char) : Remote :=
  ⟨r.baseFolderUUID,
   (freshUuid r.nextUuid, ⟨[], []⟩) ::
     (cur, ⟨[], [createdEntry f r cur s]⟩) :: r.contents,
   r.nextUuid + 1, r.now⟩

theorem CreateDirectory_empty (f : Filen) (r : Remote) (cur : String) (s : List Char)
    (hcur : getContent r cur = some ⟨[], []⟩) :
    CreateDirectory f r cur (String.mk s) = Except.ok
      (⟨freshUuid r.nextUuid, String.mk s, cur, "", r.now, false⟩, createdState f r cur s) :=
  CreateDirectory_ok f r cur (String.mk s) ⟨[], []⟩ hcur

/-- The Directory value ReadDirectory decodes from a created entry. -/
def createdDir (r : Remote) (cur : String) (s : List Char) : Directory :=
  ⟨freshUuid r.nextUuid, String.mk s, cur, "<none>", r.now, false⟩

theorem readDirectory_createdState_cur (f : Filen) (r : Remote) (cur : String) (s : List Char)
    (hkeys : f.masterKeys ≠ []) (hne : ∀ m, r.nextUuid ≤ m → freshUuid m ≠ cur) :
    ReadDirectory f (createdState f r cur s) cur = Except.ok ([], [createdDir r cur s]) := by
  have hu1 : ¬freshUuid r.nextUuid = cur := hne r.nextUuid (Nat.le_refl _)
  have hg : getContent (createdState f r cur s) cur = some ⟨[], [createdEntry f r cur s]⟩ := by
    unfold createdState
    rw [getContent_cons, if_neg hu1, getContent_cons, if_pos rfl]
  exact ReadDirectory_ok_of f _ cur _ [] [createdDir r cur s] hg rfl
    (transformFolders_single f.masterKeys _ _ _ _ _ _ (currentKey_mem f hkeys))

theorem createChain (f : Filen) (segs : List (List Char)) :
    ∀ (r : Remote) (cur : String),
      f.masterKeys ≠ [] →
      segs ≠ [] →
      (∀ s ∈ segs, s.isEmpty = false) →
      getContent r cur = some ⟨[], []⟩ →
      (∀ m, r.nextUuid ≤ m → freshUuid m ≠ cur) →
      ∃ rF : Remote,
        findDirectoryOrCreateLoop f cur r segs =
          Except.ok (freshUuid (r.nextUuid + segs.length - 1), rF) ∧
        rF.nextUuid = r.nextUuid + segs.length ∧
        rF.baseFolderUUID = r.baseFolderUUID ∧
        findDirectoryOrCreateLoop f cur rF segs =
          Except.ok (freshUuid (r.nextUuid + segs.length - 1), rF) ∧
        (∀ w, w ≠ cur → (∀ m, r.nextUuid ≤ m → freshUuid m ≠ w) →
          getContent rF w = getContent r w) := by
  induction segs with
  | nil => intro r cur _ hne _ _ _; exact absurd rfl hne
  | cons s t ih =>
    intro r cur hkeys _ hall hcur hfresh
    have hs : s.isEmpty = false := hall s (List.mem_cons_self s t)
    have hRead : ReadDirectory f r cur = Except.ok ([], []) :=
      ReadDirectory_ok_of f r cur ⟨[], []⟩ [] [] hcur rfl rfl
    have hCreate := CreateDirectory_empty f r cur s hcur
    have hu1cur : ¬freshUuid r.nextUuid = cur := hfresh r.nextUuid (Nat.le_refl _)
    have hstep : findDirectoryOrCreateLoop f cur r (s :: t) =
        findDirectoryOrCreateLoop f (freshUuid r.nextUuid) (createdState f r cur s) t := by
      simp [findDirectoryOrCreateLoop, hs, hRead, hCreate]
    have hr1u1 : getContent (createdState f r cur s) (freshUuid r.nextUuid) = some ⟨[], []⟩ := by
      unfold createdState
      rw [getContent_cons, if_pos rfl]
    have hReadBack := readDirectory_createdState_cur f r cur s hkeys hfresh
    have hfind : ([createdDir r cur s].find? (fun d => d.Name == String.mk s)) =
        some (createdDir r cur s) := by
      simp [createdDir, List.find?]
    cases t with
    | nil =>
      refine ⟨createdState f r cur s, ?_, ?_, rfl, ?_, ?_⟩
      · rw [hstep]
        show Except.ok (freshUuid r.nextUuid, createdState f r cur s) = _
        have harith : r.nextUuid + [s].length - 1 = r.nextUuid := by simp
        rw [harith]
      · simp [createdState]
      · have harith : r.nextUuid + [s].length - 1 = r.nextUuid := by simp
        rw [harith]
        simp only [findDirectoryOrCreateLoop, hs, Bool.false_eq_true, if_false, hReadBack]
        simp only [hfind]
        rfl
      · intro w hwcur hwfresh
        have hwu1 : ¬freshUuid r.nextUuid = w :=
          hwfresh r.nextUuid (Nat.le_refl _)
        unfold createdState
        rw [getContent_cons, if_neg hwu1, getContent_cons,
          if_neg (fun he => hwcur he.symm)]
        rfl
    | cons s2 t2 =>
      have hall' : ∀ x ∈ s2 :: t2, x.isEmpty = false := fun x hx =>
        hall x (List.mem_cons_of_mem s hx)
      have hfresh1 : ∀ m, (createdState f r cur s).nextUuid ≤ m →
          freshUuid m ≠ freshUuid r.nextUuid := by
        intro m hm heq
        have := freshUuid_inj heq
        simp [createdState] at hm
        omega
      obtain ⟨rF, hloop, hnext, hbase, hsecond, hpres⟩ :=
        ih (createdState f r cur s) (freshUuid r.nextUuid) hkeys (by simp) hall' hr1u1 hfresh1
      have hn1 : (createdState f r cur s).nextUuid = r.nextUuid + 1 := rfl
      have harith : (createdState f r cur s).nextUuid + (s2 :: t2).length - 1 =
          r.nextUuid + (s :: s2 :: t2).length - 1 := by
        rw [hn1]
        simp only [List.length_cons]
        omega
      refine ⟨rF, ?_, ?_, ?_, ?_, ?_⟩
      · rw [hstep, hloop, harith]
      · rw [hnext, hn1]
        simp only [List.length_cons]
        omega
      · rw [hbase]
        rfl
      · have hrFcur : getContent rF cur = some ⟨[], [createdEntry f r cur s]⟩ := by
          rw [hpres cur (fun he => hu1cur he.symm)
            (fun m hm => hfresh m (by rw [hn1] at hm; omega))]
          unfold createdState
          rw [getContent_cons, if_neg hu1cur, getContent_cons, if_pos rfl]
        have hReadF : ReadDirectory f rF cur = Except.ok ([], [createdDir r cur s]) :=
          ReadDirectory_ok_of f rF cur _ [] [createdDir r cur s] hrFcur rfl
            (transformFolders_single f.masterKeys _ _ _ _ _ _ (currentKey_mem f hkeys))
        have hstep2 : findDirectoryOrCreateLoop f cur rF (s :: s2 :: t2) =
            findDirectoryOrCreateLoop f (freshUuid r.nextUuid) rF (s2 :: t2) := by
          simp [findDirectoryOrCreateLoop, hs, hReadF, hfind]
          rfl
        rw [hstep2, hsecond, harith]
      · intro w hwcur hwfresh
        have hwu1 : freshUuid r.nextUuid ≠ w := hwfresh r.nextUuid (Nat.le_refl _)
        rw [hpres w (fun he => hwu1 he.symm)
          (fun m hm => hwfresh m (by rw [hn1] at hm; omega))]
        unfold createdState
        rw [getContent_cons, if_neg hwu1, getContent_cons,
          if_neg (fun he => hwcur he.symm)]
        rfl

end filen

/-! ## Shared concrete fixtures and small helpers for the claims -/

namespace filen

theorem freshUuid_ne_base (m : Nat) : freshUuid m ≠ "base" := by
  intro h
  have hd : List.replicate (m + 1) 'u' = ("base" : String).data := congrArg String.data h
  have hb : ("base" : String).data = ['b', 'a', 's', 'e'] := rfl
  rw [hb, List.replicate_succ] at hd
  injection hd with h1 _
  exact absurd h1 (by decide)

/-- A session with one master key. -/
def filenFix : Filen := ⟨["k1"]⟩

/-- Decrypted plaintext of the fixture file named a. -/
def fileMetaA : String :=
  "\x7b\"name\":\"a\",\"size\":1,\"mime\":\"text/plain\",\"key\":\"fk\",\"lastModified\":5\x7d"

/-- A remote whose root contains exactly one file named a (no directories). -/
def remoteFileA : Remote :=
  ⟨"base", [("base", ⟨[⟨"f1", EncryptMetadata fileMetaA "k1", 7, "base", 0, "rg", "bk", 1⟩],
    []⟩)], 0, 0⟩

/-- The decoded File record for the fixture file named a. -/
def fileA : File := ⟨"f1", "a", 1, "text/plain", "fk", 7, 5, "base", false, "rg", "bk", 1⟩

/-- A remote whose root contains a file named b and a directory named b. -/
def remoteTie : Remote :=
  ⟨"base", [("base",
    ⟨[⟨"fb", EncryptMetadata (marshalName "b") "k1", 1, "base", 0, "rg", "bk", 2⟩],
     [⟨"db", EncryptMetadata (marshalName "b") "k1", "base", 2, 0, "h"⟩]⟩)], 0, 0⟩

/-- The decoded File record for the fixture file named b. -/
def fileB : File := ⟨"fb", "b", 0, "", "", 1, 0, "base", false, "rg", "bk", 2⟩

/-- The decoded Directory record for the fixture directory named b. -/
def dirB : Directory := ⟨"db", "b", "base", "<none>", 2, false⟩

/-- An empty-root remote used for materialization claims. -/
def remoteEmpty : Remote := ⟨"base", [("base", ⟨[], []⟩)], 0, 0⟩

/-- The name-lookup token CreateDirectory submits for a name, as recorded by
the remote create call under the parent's listing. -/
def submittedNameHash (f : Filen) (r : Remote) (parent name : String) : Option String :=
  match CreateDirectory f r parent name with
  | Except.ok (_, r') =>
    match getContent r' parent with
    | some c => (c.folders.getLast?).map (fun e => e.nameHashed)
    | none => none
  | Except.error _ => none

end filen

/-! ## The claims -/

/-- C1: cloud.go's FindItem file scan (lines 100-105) lacks the
final-segment test that the directory scan has, contradicting both the spec
(a file match on a non-final segment is not a valid traversal step and must
fall through to not-found) and FindItem's own doc comment (it finds an item
by its path). At the failing input — a root containing only a file named a,
resolving "a/b" with requireDirectory=false — the code returns the file a
instead of the specified not-found: this theorem evaluates the code there. -/
theorem c1_nonfinal_file_segment_returns_file :
    filen.FindItem filen.filenFix filen.remoteFileA "a/b" false =
      Except.ok (some filen.fileA, none) := by rfl

/-- C2 counterexample: the claim says the submitted name token is a salted
hash of the lowercased/normalized name, which would give the names A and a
the identical token; the tokens CreateDirectory submits for A and a differ,
so the hash is applied to the exact name, unlowercased. -/
theorem c2_counterexample :
    filen.submittedNameHash filen.filenFix filen.remoteEmpty "base" "A" ≠
      filen.submittedNameHash filen.filenFix filen.remoteEmpty "base" "a" := by
  decide

/-- C2 amended: the name lookup token submitted by CreateDirectory is the
deterministic, unsalted SHA-512 digest of the exact plaintext name bytes
(no lowercasing or normalization), hex-encoded to a fixed 128-character
token; the created folder entry records exactly this token, and the name
metadata is encrypted under the current master key. -/
theorem c2_name_hash_exact_sha512 (f : filen.Filen) (r : filen.Remote) (parent name : String)
    (c : filen.DirectoryContent) (hg : filen.getContent r parent = some c)
    (hne : filen.freshUuid r.nextUuid ≠ parent) :
    ∃ d r', filen.CreateDirectory f r parent name = Except.ok (d, r') ∧
      filen.getContent r' parent = some ⟨c.uploads, c.folders ++
        [⟨filen.freshUuid r.nextUuid, EncryptMetadata (marshalName name) f.CurrentMasterKey,
          parent, r.now, 0, crypto.hexEncode (crypto.RunSHA521 (crypto.utf8Bytes name))⟩]⟩ ∧
      (crypto.hexEncode (crypto.RunSHA521 (crypto.utf8Bytes name))).length = 128 := by
  refine ⟨_, _, filen.CreateDirectory_ok f r parent name c hg, ?_, ?_⟩
  · rw [filen.getContent_cons, if_neg hne, filen.getContent_cons, if_pos rfl]
  · rw [crypto.length_hexEncode]
    unfold crypto.RunSHA521
    rw [crypto.length_sha512]

/-- C2 witness: the amended claim instantiated at a concrete remote. -/
theorem c2_witness :
    filen.getContent filen.remoteEmpty "base" = some ⟨[], []⟩ ∧
    (∃ d r', filen.CreateDirectory filen.filenFix filen.remoteEmpty "base" "A" =
        Except.ok (d, r') ∧
      filen.getContent r' "base" = some ⟨[], [] ++
        [⟨filen.freshUuid 0, EncryptMetadata (marshalName "A") filen.filenFix.CurrentMasterKey,
          "base", 0, 0, crypto.hexEncode (crypto.RunSHA521 (crypto.utf8Bytes "A"))⟩]⟩ ∧
      (crypto.hexEncode (crypto.RunSHA521 (crypto.utf8Bytes "A"))).length = 128) :=
  ⟨rfl, c2_name_hash_exact_sha512 filen.filenFix filen.remoteEmpty "base" "A" ⟨[], []⟩ rfl
    (filen.freshUuid_ne_base 0)⟩

/-- C3 counterexample: resolving a path with zero non-empty segments through
FindItem does not return the root directory as a Directory result; it
returns an error. -/
theorem c3_counterexample :
    filen.FindItem filen.filenFix filen.remoteEmpty "" false =
      Except.error "no segments in path " := by rfl

/-- C3 amended: for every path with zero non-empty segments (empty string or
only slashes), FindItem returns the error "no segments in path ..." rather
than a Directory result; handling such paths is delegated to FindItemUUID
(see C9), as FindItem's own documentation states. -/
theorem c3_empty_path_is_error (f : filen.Filen) (r : filen.Remote) (path : String)
    (requireDirectory : Bool)
    (h : (filen.splitPath path.data).flatten.isEmpty = true) :
    filen.FindItem f r path requireDirectory =
      Except.error ("no segments in path " ++ path) := by
  simp [filen.FindItem, h]

/-- C3 witness: the amended claim at the all-slashes path. -/
theorem c3_witness :
    (filen.splitPath ("//" : String).data).flatten.isEmpty = true ∧
    filen.FindItem filen.filenFix filen.remoteEmpty "//" true =
      Except.error "no segments in path //" :=
  ⟨by decide, c3_empty_path_is_error filen.filenFix filen.remoteEmpty "//" true (by decide)⟩

/-- C5: for every final path segment whose parent listing contains both a
file and a directory with decrypted name exactly equal to that segment, the
segment walk of FindItem returns the first matching file (and nil
directory) when requireDirectory is false and the first matching directory
(and nil file) when requireDirectory is true; when the segment is the whole
path resolved from the root, the same holds for FindItem itself. -/
theorem c5_final_segment_tiebreak (f : filen.Filen) (r : filen.Remote) (cur : String)
    (seg : String) (files : List filen.File) (dirs : List filen.Directory)
    (fl : filen.File) (d : filen.Directory)
    (hseg : seg.data.isEmpty = false)
    (hR : filen.ReadDirectory f r cur = Except.ok (files, dirs))
    (hf : files.find? (fun x => x.Name == seg) = some fl)
    (hd : dirs.find? (fun x => x.Name == seg) = some d) :
    filen.findItemLoop f r false cur [seg.data] = Except.ok (some fl, none) ∧
    filen.findItemLoop f r true cur [seg.data] = Except.ok (none, some d) ∧
    (('/' ∉ seg.data ∧ cur = r.baseFolderUUID) →
      filen.FindItem f r seg false = Except.ok (some fl, none) ∧
      filen.FindItem f r seg true = Except.ok (none, some d)) := by
  have heta : String.mk seg.data = seg := rfl
  have h1 : filen.findItemLoop f r false cur [seg.data] = Except.ok (some fl, none) := by
    simp [filen.findItemLoop, hseg, hR, heta, hf]
  have h2 : filen.findItemLoop f r true cur [seg.data] = Except.ok (none, some d) := by
    simp [filen.findItemLoop, hseg, hR, heta, hd]
  refine ⟨h1, h2, ?_⟩
  rintro ⟨hslash, hcur⟩
  have hsplit : filen.splitPath seg.data = [seg.data] := filen.splitPath_no_slash seg.data hslash
  have hflat1 : ([seg.data] : List (List Char)).flatten.isEmpty = false := by
    simpa using hseg
  constructor
  · show filen.FindItem f r seg false = _
    unfold filen.FindItem
    rw [hsplit]
    simp only [hflat1, Bool.false_eq_true, if_false]
    rw [show f.GetBaseFolderUUID r = cur from hcur.symm]
    exact h1
  · show filen.FindItem f r seg true = _
    unfold filen.FindItem
    rw [hsplit]
    simp only [hflat1, Bool.false_eq_true, if_false]
    rw [show f.GetBaseFolderUUID r = cur from hcur.symm]
    exact h2

/-- C5 witness: the tie-break at a concrete root with both a file b and a
directory b. -/
theorem c5_witness :
    ("b" : String).data.isEmpty = false ∧
    filen.FindItem filen.filenFix filen.remoteTie "b" false =
      Except.ok (some filen.fileB, none) ∧
    filen.FindItem filen.filenFix filen.remoteTie "b" true =
      Except.ok (none, some filen.dirB) := by
  refine ⟨by decide, ?_⟩
  have h := c5_final_segment_tiebreak filen.filenFix filen.remoteTie "base" "b"
    [filen.fileB] [filen.dirB] filen.fileB filen.dirB (by decide) (by rfl) (by rfl) (by rfl)
  exact h.2.2 ⟨by decide, rfl⟩

/-- C4 counterexample: a listing entry whose decrypted plaintext is valid
JSON with every required field missing is silently accepted by
ReadDirectory with Go zero values (empty name, size 0), not rejected with a
MalformedMetadata error. -/
theorem c4_counterexample :
    filen.ReadDirectory filen.filenFix
      ⟨"base", [("base", ⟨[⟨"f1", EncryptMetadata "\x7b\x7d" "k1", 7, "base", 0, "rg", "bk", 1⟩],
        []⟩)], 0, 0⟩ "base" =
      Except.ok ([⟨"f1", "", 0, "", "", 7, 0, "base", false, "rg", "bk", 1⟩], []) := by rfl

/-- C4 amended: when any entry's decrypted plaintext — a file's metadata or
a folder's name blob — fails JSON unmarshalling (invalid JSON, or a wrongly
typed field), ReadDirectory fails as a whole with the propagated generic
parse error — there is no distinct MalformedMetadata error kind — while
valid JSON missing required fields is silently accepted with zero values
(see the counterexample). -/
theorem c4_parse_error_fails_call (f : filen.Filen) (r : filen.Remote) (u : String)
    (c : filen.DirectoryContent)
    (hg : filen.getContent r u = some c)
    (hfail :
      (∃ e ∈ c.uploads, ∃ pt m,
        DecryptMetadataAllKeys e.metadata f.masterKeys = Except.ok pt ∧
        parseFileMetadata pt = Except.error m) ∨
      (∃ e ∈ c.folders, ∃ pt m,
        DecryptMetadataAllKeys e.name f.masterKeys = Except.ok pt ∧
        parseDirectoryName pt = Except.error m)) :
    ∃ msg, filen.ReadDirectory f r u = Except.error msg := by
  cases hfail with
  | inl hup =>
    obtain ⟨e, he, pt, m, hdec, hp⟩ := hup
    obtain ⟨msg, hmsg⟩ :=
      filen.transformUploads_error_parse f.masterKeys c.uploads e pt m he hdec hp
    exact ⟨msg, by simp [filen.ReadDirectory, filen.Remote.getDirectoryContent, hg, hmsg]⟩
  | inr hfo =>
    obtain ⟨e, he, pt, m, hdec, hp⟩ := hfo
    cases hu : filen.transformUploads f.masterKeys c.uploads with
    | error msg =>
      exact ⟨msg, by simp [filen.ReadDirectory, filen.Remote.getDirectoryContent, hg, hu]⟩
    | ok fl =>
      obtain ⟨msg, hmsg⟩ :=
        filen.transformFolders_error_parse f.masterKeys c.folders e pt m he hdec hp
      exact ⟨msg, by simp [filen.ReadDirectory, filen.Remote.getDirectoryContent, hg, hu, hmsg]⟩

/-- C4 witness: a concrete listing whose single folder entry decrypts to a
name blob that is not JSON makes the whole ReadDirectory call fail. -/
theorem c4_witness :
    parseDirectoryName "notjson" = Except.error "invalid JSON: notjson" ∧
    (∃ msg, filen.ReadDirectory filen.filenFix
      ⟨"base", [("base", ⟨[], [⟨"d1", EncryptMetadata "notjson" "k1", "base", 0, 0, "hh"⟩]⟩)],
        0, 0⟩ "base" = Except.error msg) :=
  ⟨by rfl, c4_parse_error_fails_call filen.filenFix
    ⟨"base", [("base", ⟨[], [⟨"d1", EncryptMetadata "notjson" "k1", "base", 0, 0, "hh"⟩]⟩)],
      0, 0⟩ "base" _ rfl
    (Or.inr ⟨⟨"d1", EncryptMetadata "notjson" "k1", "base", 0, 0, "hh"⟩,
      List.mem_singleton.mpr rfl, "notjson", "invalid JSON: notjson", rfl, by rfl⟩)⟩

/-- C7: ReadDirectory is all-or-nothing. First conjunct: if any single
child's metadata fails decryption against all master keys, the entire call
returns an error (no partial listing; in the embedding an error result
carries no file or directory slices). Second conjunct: on success the
result decrypts every child of the listing — the returned Files and
Directories correspond UUID-for-UUID, in order, to the listing's uploads
and folders. -/
theorem c7_read_directory_all_or_nothing :
    (∀ (f : filen.Filen) (r : filen.Remote) (u : String) (c : filen.DirectoryContent),
      filen.getContent r u = some c →
      ((∃ e ∈ c.uploads, ∃ m, DecryptMetadataAllKeys e.metadata f.masterKeys =
          Except.error m) ∨
       (∃ e ∈ c.folders, ∃ m, DecryptMetadataAllKeys e.name f.masterKeys =
          Except.error m)) →
      ∃ msg, filen.ReadDirectory f r u = Except.error msg) ∧
    (∀ (f : filen.Filen) (r : filen.Remote) (u : String) (c : filen.DirectoryContent)
      (files : List filen.File) (dirs : List filen.Directory),
      filen.getContent r u = some c →
      filen.ReadDirectory f r u = Except.ok (files, dirs) →
      files.map filen.File.UUID = c.uploads.map filen.UploadEntry.uuid ∧
      dirs.map filen.Directory.UUID = c.folders.map filen.FolderEntry.uuid) := by
  constructor
  · intro f r u c hg hfail
    cases hfail with
    | inl hup =>
      obtain ⟨e, he, m, hm⟩ := hup
      obtain ⟨msg, hmsg⟩ := filen.transformUploads_error_decrypt f.masterKeys c.uploads e m he hm
      exact ⟨msg, by simp [filen.ReadDirectory, filen.Remote.getDirectoryContent, hg, hmsg]⟩
    | inr hfo =>
      obtain ⟨e, he, m, hm⟩ := hfo
      cases hu : filen.transformUploads f.masterKeys c.uploads with
      | error msg =>
        exact ⟨msg, by simp [filen.ReadDirectory, filen.Remote.getDirectoryContent, hg, hu]⟩
      | ok fl =>
        obtain ⟨msg, hmsg⟩ :=
          filen.transformFolders_error_decrypt f.masterKeys c.folders e m he hm
        exact ⟨msg, by simp [filen.ReadDirectory, filen.Remote.getDirectoryContent, hg, hu, hmsg]⟩
  · intro f r u c files dirs hg hok
    obtain ⟨c2, hg2, hu2, hd2⟩ := filen.ReadDirectory_ok_inv f r u files dirs hok
    rw [hg] at hg2
    cases hg2
    exact ⟨filen.transformUploads_uuids _ _ _ hu2, filen.transformFolders_uuids _ _ _ hd2⟩

/-- C7 witness: a root listing with one folder entry encrypted under a key
outside the session's key set makes the whole call fail. -/
theorem c7_witness :
    (∃ m, DecryptMetadataAllKeys (EncryptMetadata "x" "otherkey") ["k1"] = Except.error m) ∧
    (∃ msg, filen.ReadDirectory filen.filenFix
      ⟨"base", [("base", ⟨[], [⟨"d1", EncryptMetadata "x" "otherkey", "base", 1, 0, "h"⟩]⟩)],
        0, 0⟩ "base" = Except.error msg) :=
  ⟨⟨"NoMatchingKey", rfl⟩,
   c7_read_directory_all_or_nothing.1 filen.filenFix
     ⟨"base", [("base", ⟨[], [⟨"d1", EncryptMetadata "x" "otherkey", "base", 1, 0, "h"⟩]⟩)],
       0, 0⟩ "base" _ rfl
     (Or.inr ⟨⟨"d1", EncryptMetadata "x" "otherkey", "base", 1, 0, "h"⟩,
       List.mem_singleton.mpr rfl, "NoMatchingKey", rfl⟩)⟩

/-- C9: for every path with zero non-empty segments, FindItemUUID returns
the root directory's UUID with no error. The statement quantifies over
every remote state — including states whose every directory-listing request
fails (the witness uses one) — so the result cannot depend on any listing
request: the call short-circuits to the root-folder fetch before any
segment walk. -/
theorem c9_empty_path_returns_root (f : filen.Filen) (r : filen.Remote) (path : String)
    (requireDirectory : Bool)
    (h : (filen.splitPath path.data).flatten.isEmpty = true) :
    filen.FindItemUUID f r path requireDirectory = Except.ok r.baseFolderUUID := by
  simp [filen.FindItemUUID, h, filen.Filen.GetBaseFolderUUID]

/-- C9 witness: the all-slashes path on a remote with no listings at all
(every GetDirectoryContent request would fail) still resolves to the root
UUID. -/
theorem c9_witness :
    (filen.splitPath ("///" : String).data).flatten.isEmpty = true ∧
    filen.FindItemUUID filen.filenFix ⟨"base", [], 0, 0⟩ "///" false = Except.ok "base" :=
  ⟨by decide,
   c9_empty_path_returns_root filen.filenFix ⟨"base", [], 0, 0⟩ "///" false (by decide)⟩

/-- The %032x padding never fires for a SHA-512 digest: its hex encoding is
already 128 characters. -/
theorem sprintf032x_sha512 (b : List Nat) :
    crypto.sprintf032x (crypto.sha512 b) = crypto.hexEncode (crypto.sha512 b) := by
  unfold crypto.sprintf032x
  rw [if_neg]
  rw [crypto.length_hexEncode, crypto.length_sha512]
  omega

/-- C8: GeneratePasswordAndMasterKey is total (no error outcome) and, for
every passphrase and salt, computes PBKDF2-HMAC-SHA512 with 200,000
iterations and 512-bit (64-byte) output, hex-encodes it to a 128-character
digest, and splits that digest in half: the first 64 hex characters are
returned as the master key material, and the second 64 characters are
hashed once more with SHA-512 (the %032x formatting being a no-op at this
length) to produce the 128-character authentication secret. -/
theorem c8_password_derivation (p s : String) :
    crypto.GeneratePasswordAndMasterKey p s =
      (String.mk ((crypto.hexEncode (crypto.DeriveKeyFromPassword p s 200000 512)).data.take 64),
       crypto.hexEncode (crypto.sha512 (crypto.utf8Bytes
         (String.mk ((crypto.hexEncode
           (crypto.DeriveKeyFromPassword p s 200000 512)).data.drop 64))))) ∧
    (crypto.hexEncode (crypto.DeriveKeyFromPassword p s 200000 512)).length = 128 ∧
    (crypto.GeneratePasswordAndMasterKey p s).1.length = 64 ∧
    (crypto.GeneratePasswordAndMasterKey p s).2.length = 128 ∧
    crypto.DeriveKeyFromPassword p s 200000 512 =
      crypto.pbkdf2Key (crypto.utf8Bytes p) (crypto.utf8Bytes s) 200000 64 := by
  have hdk : (crypto.hexEncode (crypto.DeriveKeyFromPassword p s 200000 512)).length = 128 := by
    rw [crypto.length_hexEncode, crypto.length_DeriveKeyFromPassword]
  have hhalf : (crypto.hexEncode (crypto.DeriveKeyFromPassword p s 200000 512)).length / 2 = 64 := by
    rw [hdk]
  have hmain : crypto.GeneratePasswordAndMasterKey p s =
      (String.mk ((crypto.hexEncode (crypto.DeriveKeyFromPassword p s 200000 512)).data.take 64),
       crypto.hexEncode (crypto.sha512 (crypto.utf8Bytes
         (String.mk ((crypto.hexEncode
           (crypto.DeriveKeyFromPassword p s 200000 512)).data.drop 64))))) := by
    simp only [crypto.GeneratePasswordAndMasterKey]
    rw [hhalf]
    simp only [crypto.runSHA512lower]
    rw [sprintf032x_sha512]
  refine ⟨hmain, hdk, ?_, ?_, rfl⟩
  · rw [hmain]
    revert hdk
    generalize crypto.hexEncode (crypto.DeriveKeyFromPassword p s 200000 512) = hx
    intro hdk
    show (hx.data.take 64).length = 64
    rw [List.length_take]
    have hdata : hx.data.length = 128 := hdk
    omega
  · rw [hmain]
    rw [crypto.length_hexEncode, crypto.length_sha512]
namespace filen

theorem CreateDirectory_ok_inv (f : Filen) (r : Remote) (parent name : String)
    (d : Directory) (r' : Remote) (h : CreateDirectory f r parent name = Except.ok (d, r')) :
    d.UUID = freshUuid r.nextUuid ∧ r'.nextUuid = r.nextUuid + 1 ∧
    ∃ c, getContent r parent = some c ∧
      r'.contents = (freshUuid r.nextUuid, ⟨[], []⟩) ::
        (parent, ⟨c.uploads, c.folders ++ [⟨freshUuid r.nextUuid,
          EncryptMetadata (marshalName name) f.CurrentMasterKey, parent, r.now, 0,
          crypto.hexEncode (crypto.RunSHA521 (crypto.utf8Bytes name))⟩]⟩) :: r.contents := by
  cases hg : getContent r parent with
  | none => simp [CreateDirectory, hg] at h
  | some c =>
    rw [CreateDirectory_ok f r parent name c hg] at h
    injection h with h2
    rw [Prod.mk.injEq] at h2
    obtain ⟨hd, hr⟩ := h2
    subst hd
    subst hr
    exact ⟨rfl, rfl, c, rfl, rfl⟩

/-- The segment walk of FindDirectoryOrCreate only ever prepends to the
remote content store: every stored pair survives. -/
theorem fdocLoop_contents_mono (f : Filen) (segs : List (List Char)) :
    ∀ (r : Remote) (cur u : String) (rF : Remote) (x : String × DirectoryContent),
      findDirectoryOrCreateLoop f cur r segs = Except.ok (u, rF) →
      x ∈ r.contents → x ∈ rF.contents := by
  induction segs with
  | nil =>
    intro r cur u rF x h hx
    rw [show findDirectoryOrCreateLoop f cur r [] = Except.ok (cur, r) from rfl] at h
    injection h with h2
    rw [Prod.mk.injEq] at h2
    rw [← h2.2]
    exact hx
  | cons sg t ih =>
    intro r cur u rF x h hx
    by_cases hs : sg.isEmpty
    · rw [show findDirectoryOrCreateLoop f cur r (sg :: t) =
        findDirectoryOrCreateLoop f cur r t from by simp [findDirectoryOrCreateLoop, hs]] at h
      exact ih r cur u rF x h hx
    · have hs' : sg.isEmpty = false := by
        cases hb : sg.isEmpty
        · rfl
        · exact absurd hb hs
      simp only [findDirectoryOrCreateLoop, hs', Bool.false_eq_true, if_false] at h
      cases hR : ReadDirectory f r cur with
      | error e => simp [hR] at h
      | ok pr =>
        obtain ⟨fls, dirs⟩ := pr
        simp only [hR] at h
        cases hfind : dirs.find? (fun dd => dd.Name == String.mk sg) with
        | some dd =>
          simp only [hfind] at h
          exact ih r dd.UUID u rF x h hx
        | none =>
          simp only [hfind] at h
          cases hC : CreateDirectory f r cur (String.mk sg) with
          | error e => simp [hC] at h
          | ok pr2 =>
            obtain ⟨dd, r2⟩ := pr2
            simp only [hC] at h
            obtain ⟨_, _, c, hg, hcont⟩ := CreateDirectory_ok_inv f r cur (String.mk sg) dd r2 hC
            have hx2 : x ∈ r2.contents := by
              rw [hcont]
              exact List.mem_cons_of_mem _ (List.mem_cons_of_mem _ hx)
            exact ih r2 dd.UUID u rF x h hx2

theorem getContent_mem (r : Remote) (u : String) (c : DirectoryContent)
    (h : getContent r u = some c) : (u, c) ∈ r.contents := by
  unfold getContent at h
  cases hf : r.contents.find? (fun p => p.1 == u) with
  | none => rw [hf] at h; cases h
  | some pr =>
    rw [hf] at h
    simp at h
    have hp := List.find?_some hf
    have hmem := List.mem_of_find?_eq_some hf
    have h1 : pr.1 = u := by simpa using hp
    have h2 : pr = (u, c) := by
      obtain ⟨a, b⟩ := pr
      simp only at h h1
      rw [h1, h]
    rw [← h2]
    exact hmem

/-- A UUID names a directory recorded on the remote: some stored listing has
a folder entry carrying it. -/
def uuidIsDirectory (r : Remote) (u : String) : Prop :=
  ∃ p, p ∈ r.contents ∧ ∃ e, e ∈ p.2.folders ∧ e.uuid = u

end filen

/-- C10: FindDirectoryOrCreate never inspects files. First conjunct: at a
segment whose listing contains a file of that exact name but no matching
directory, the walk creates a fresh directory with that name under the
current parent — after which the re-read listing contains both the original
file and the new directory as same-named siblings — and continues into the
created directory. Second and third conjuncts: any UUID returned by the
segment walk, and by FindDirectoryOrCreate itself, is the walked-from
current/root UUID or the UUID of a folder entry recorded on the remote —
never a file's UUID. -/
theorem c10_never_inspects_files :
    (∀ (f : filen.Filen) (r : filen.Remote) (cur : String) (sg : List Char)
       (rest : List (List Char)) (files : List filen.File) (dirs : List filen.Directory)
       (fl : filen.File),
      f.masterKeys ≠ [] →
      sg.isEmpty = false →
      filen.freshUuid r.nextUuid ≠ cur →
      filen.ReadDirectory f r cur = Except.ok (files, dirs) →
      fl ∈ files → fl.Name = String.mk sg →
      dirs.find? (fun d => d.Name == String.mk sg) = none →
      ∃ d r', filen.CreateDirectory f r cur (String.mk sg) = Except.ok (d, r') ∧
        filen.findDirectoryOrCreateLoop f cur r (sg :: rest) =
          filen.findDirectoryOrCreateLoop f d.UUID r' rest ∧
        d.UUID = filen.freshUuid r.nextUuid ∧ r'.nextUuid = r.nextUuid + 1 ∧
        filen.ReadDirectory f r' cur = Except.ok (files, dirs ++
          [⟨filen.freshUuid r.nextUuid, String.mk sg, cur, "<none>", r.now, false⟩])) ∧
    (∀ (f : filen.Filen) (segs : List (List Char)) (r : filen.Remote) (cur u : String)
       (rF : filen.Remote),
      filen.findDirectoryOrCreateLoop f cur r segs = Except.ok (u, rF) →
      u = cur ∨ filen.uuidIsDirectory rF u) ∧
    (∀ (f : filen.Filen) (r : filen.Remote) (path : String) (u : String) (rF : filen.Remote),
      filen.FindDirectoryOrCreate f r path = Except.ok (u, rF) →
      u = r.baseFolderUUID ∨ filen.uuidIsDirectory rF u) := by
  have part2 : ∀ (f : filen.Filen) (segs : List (List Char)) (r : filen.Remote)
      (cur u : String) (rF : filen.Remote),
      filen.findDirectoryOrCreateLoop f cur r segs = Except.ok (u, rF) →
      u = cur ∨ filen.uuidIsDirectory rF u := by
    intro f segs
    induction segs with
    | nil =>
      intro r cur u rF h
      rw [show filen.findDirectoryOrCreateLoop f cur r [] = Except.ok (cur, r) from rfl] at h
      injection h with h2
      rw [Prod.mk.injEq] at h2
      exact Or.inl h2.1.symm
    | cons sg t ih =>
      intro r cur u rF h
      by_cases hs : sg.isEmpty
      · rw [show filen.findDirectoryOrCreateLoop f cur r (sg :: t) =
          filen.findDirectoryOrCreateLoop f cur r t from by
            simp [filen.findDirectoryOrCreateLoop, hs]] at h
        exact ih r cur u rF h
      · have hs' : sg.isEmpty = false := by
          cases hb : sg.isEmpty
          · rfl
          · exact absurd hb hs
        simp only [filen.findDirectoryOrCreateLoop, hs', Bool.false_eq_true, if_false] at h
        cases hR : filen.ReadDirectory f r cur with
        | error e => simp [hR] at h
        | ok pr =>
          obtain ⟨fls, dirs⟩ := pr
          simp only [hR] at h
          obtain ⟨c, hg, hu, hd⟩ := filen.ReadDirectory_ok_inv f r cur fls dirs hR
          cases hfind : dirs.find? (fun dd => dd.Name == String.mk sg) with
          | some dd =>
            simp only [hfind] at h
            cases ih r dd.UUID u rF h with
            | inr hdir => exact Or.inr hdir
            | inl hu2 =>
              refine Or.inr ?_
              have hmem := List.mem_of_find?_eq_some hfind
              obtain ⟨e, hel, heu⟩ := filen.transformFolders_mem_entry f.masterKeys c.folders
                dirs dd hd hmem
              refine ⟨(cur, c), ?_, e, hel, ?_⟩
              · exact filen.fdocLoop_contents_mono f t r dd.UUID u rF (cur, c) h
                  (filen.getContent_mem r cur c hg)
              · rw [heu, ← hu2]
          | none =>
            simp only [hfind] at h
            cases hC : filen.CreateDirectory f r cur (String.mk sg) with
            | error e => simp [hC] at h
            | ok pr2 =>
              obtain ⟨dd, r2⟩ := pr2
              simp only [hC] at h
              obtain ⟨hdu, _, c2, hg2, hcont⟩ :=
                filen.CreateDirectory_ok_inv f r cur (String.mk sg) dd r2 hC
              cases ih r2 dd.UUID u rF h with
              | inr hdir => exact Or.inr hdir
              | inl hu2 =>
                refine Or.inr ?_
                refine ⟨(cur, ⟨c2.uploads, c2.folders ++ [⟨filen.freshUuid r.nextUuid,
                  EncryptMetadata (marshalName (String.mk sg)) f.CurrentMasterKey, cur, r.now, 0,
                  crypto.hexEncode (crypto.RunSHA521 (crypto.utf8Bytes (String.mk sg)))⟩]⟩),
                  ?_, ?_⟩
                · refine filen.fdocLoop_contents_mono f t r2 dd.UUID u rF _ h ?_
                  rw [hcont]
                  exact List.mem_cons_of_mem _ (List.mem_cons_self _ _)
                · refine ⟨⟨filen.freshUuid r.nextUuid,
                    EncryptMetadata (marshalName (String.mk sg)) f.CurrentMasterKey, cur, r.now, 0,
                    crypto.hexEncode (crypto.RunSHA521 (crypto.utf8Bytes (String.mk sg)))⟩,
                    List.mem_append_right _ (List.mem_singleton.mpr rfl), ?_⟩
                  rw [hu2, hdu]
  refine ⟨?_, part2, ?_⟩
  · intro f r cur sg rest files dirs fl hkeys hs hne hR hfl hflname hfind
    obtain ⟨c, hg, hu, hd⟩ := filen.ReadDirectory_ok_inv f r cur files dirs hR
    refine ⟨_, _, filen.CreateDirectory_ok f r cur (String.mk sg) c hg, ?_, rfl, rfl, ?_⟩
    · simp [filen.findDirectoryOrCreateLoop, hs, hR, hfind,
        filen.CreateDirectory_ok f r cur (String.mk sg) c hg]
    · refine filen.ReadDirectory_ok_of f _ cur ⟨c.uploads, c.folders ++
        [⟨filen.freshUuid r.nextUuid, EncryptMetadata (marshalName (String.mk sg))
          f.CurrentMasterKey, cur, r.now, 0,
          crypto.hexEncode (crypto.RunSHA521 (crypto.utf8Bytes (String.mk sg)))⟩]⟩
        files _ ?_ hu ?_
      · rw [filen.getContent_cons, if_neg hne, filen.getContent_cons, if_pos rfl]
      · exact filen.transformFolders_append f.masterKeys c.folders _ dirs _ hd
          (filen.transformFolders_single f.masterKeys _ _ _ _ _ _
            (filen.currentKey_mem f hkeys))
  · intro f r path u rF h
    unfold filen.FindDirectoryOrCreate at h
    by_cases hflat : (filen.splitPath path.data).flatten.isEmpty
    · rw [if_pos hflat] at h
      injection h with h2
      rw [Prod.mk.injEq] at h2
      exact Or.inl h2.1.symm
    · rw [if_neg hflat] at h
      exact part2 f (filen.splitPath path.data) r (f.GetBaseFolderUUID r) u rF h

/-- C10 witness: the step behavior at a concrete root containing only a
file named x: the walk creates directory x beside it and continues into
it. -/
theorem c10_witness :
    filen.ReadDirectory filen.filenFix
      ⟨"base", [("base", ⟨[⟨"fx", EncryptMetadata (marshalName "x") "k1", 1, "base", 0,
        "rg", "bk", 3⟩], []⟩)], 0, 0⟩ "base" =
      Except.ok ([⟨"fx", "x", 0, "", "", 1, 0, "base", false, "rg", "bk", 3⟩], []) ∧
    (∃ d r', filen.CreateDirectory filen.filenFix
        ⟨"base", [("base", ⟨[⟨"fx", EncryptMetadata (marshalName "x") "k1", 1, "base", 0,
          "rg", "bk", 3⟩], []⟩)], 0, 0⟩ "base" (String.mk ("x" : String).data) =
        Except.ok (d, r') ∧
      filen.findDirectoryOrCreateLoop filen.filenFix "base"
        ⟨"base", [("base", ⟨[⟨"fx", EncryptMetadata (marshalName "x") "k1", 1, "base", 0,
          "rg", "bk", 3⟩], []⟩)], 0, 0⟩ (("x" : String).data :: []) =
        filen.findDirectoryOrCreateLoop filen.filenFix d.UUID r' [] ∧
      d.UUID = filen.freshUuid 0 ∧ r'.nextUuid = 0 + 1 ∧
      filen.ReadDirectory filen.filenFix r' "base" =
        Except.ok ([⟨"fx", "x", 0, "", "", 1, 0, "base", false, "rg", "bk", 3⟩],
          [] ++ [⟨filen.freshUuid 0, String.mk ("x" : String).data, "base", "<none>", 0,
            false⟩])) := by
  refine ⟨by rfl, ?_⟩
  exact c10_never_inspects_files.1 filen.filenFix
    ⟨"base", [("base", ⟨[⟨"fx", EncryptMetadata (marshalName "x") "k1", 1, "base", 0,
      "rg", "bk", 3⟩], []⟩)], 0, 0⟩ "base" ("x" : String).data []
    [⟨"fx", "x", 0, "", "", 1, 0, "base", false, "rg", "bk", 3⟩] []
    ⟨"fx", "x", 0, "", "", 1, 0, "base", false, "rg", "bk", 3⟩
    (by decide) (by decide) (filen.freshUuid_ne_base 0) (by rfl)
    (List.mem_singleton.mpr rfl) (by rfl) (by rfl)

/-- C6: FindDirectoryOrCreate creates exactly the missing trailing segments
and is idempotent. On a remote whose root listing has no directory matching
the first non-empty segment (so the whole chain is missing), the call
creates exactly one directory per non-empty segment — the uuid counter
advances by exactly that count — left to right, each under the previously
created one, and returns the last created directory's UUID; a second call
with the same path on the resulting state creates zero additional
directories, changes nothing (it returns the identical remote state, so no
segment is recreated or renamed) and returns the same UUID. -/
theorem c6_materialize_idempotent (f : filen.Filen) (r : filen.Remote) (path : String)
    (s1 : List Char) (rest : List (List Char))
    (files0 : List filen.File) (dirs0 : List filen.Directory)
    (hkeys : f.masterKeys ≠ [])
    (hsegs : (filen.splitPath path.data).filter (fun s => !s.isEmpty) = s1 :: rest)
    (hRead : filen.ReadDirectory f r r.baseFolderUUID = Except.ok (files0, dirs0))
    (hFind : dirs0.find? (fun d => d.Name == String.mk s1) = none)
    (hBaseFresh : ∀ m, r.nextUuid ≤ m → filen.freshUuid m ≠ r.baseFolderUUID) :
    ∃ rF, filen.FindDirectoryOrCreate f r path =
        Except.ok (filen.freshUuid (r.nextUuid + (s1 :: rest).length - 1), rF) ∧
      rF.nextUuid = r.nextUuid + (s1 :: rest).length ∧
      filen.FindDirectoryOrCreate f rF path =
        Except.ok (filen.freshUuid (r.nextUuid + (s1 :: rest).length - 1), rF) := by
  have hallne : ∀ x ∈ s1 :: rest, x.isEmpty = false := by
    intro x hx
    have hx2 : x ∈ (filen.splitPath path.data).filter (fun s => !s.isEmpty) := by
      rw [hsegs]; exact hx
    have := List.of_mem_filter hx2
    simpa using this
  have hs1 : s1.isEmpty = false := hallne s1 (List.mem_cons_self s1 rest)
  have hflat : (filen.splitPath path.data).flatten.isEmpty = false :=
    filen.flatten_ne_empty_of_filter _ (by rw [hsegs]; simp)
  obtain ⟨c0, hg0, hu0, hd0⟩ :=
    filen.ReadDirectory_ok_inv f r r.baseFolderUUID files0 dirs0 hRead
  have hCreate := filen.CreateDirectory_ok f r r.baseFolderUUID (String.mk s1) c0 hg0
  have hu1base : ¬filen.freshUuid r.nextUuid = r.baseFolderUUID :=
    hBaseFresh r.nextUuid (Nat.le_refl _)
  -- names for the state after the first creation
  set entry1 : filen.FolderEntry := ⟨filen.freshUuid r.nextUuid,
    EncryptMetadata (marshalName (String.mk s1)) f.CurrentMasterKey, r.baseFolderUUID, r.now, 0,
    crypto.hexEncode (crypto.RunSHA521 (crypto.utf8Bytes (String.mk s1)))⟩ with hentry1
  set r1 : filen.Remote := ⟨r.baseFolderUUID,
    (filen.freshUuid r.nextUuid, ⟨[], []⟩) ::
      (r.baseFolderUUID, ⟨c0.uploads, c0.folders ++ [entry1]⟩) :: r.contents,
    r.nextUuid + 1, r.now⟩ with hr1
  have hr1base : filen.getContent r1 r.baseFolderUUID =
      some ⟨c0.uploads, c0.folders ++ [entry1]⟩ := by
    rw [hr1, filen.getContent_cons, if_neg hu1base, filen.getContent_cons, if_pos rfl]
  have hr1u1 : filen.getContent r1 (filen.freshUuid r.nextUuid) = some ⟨[], []⟩ := by
    rw [hr1, filen.getContent_cons, if_pos rfl]
  have hReadBack : ∀ rb : filen.Remote,
      filen.getContent rb r.baseFolderUUID = some ⟨c0.uploads, c0.folders ++ [entry1]⟩ →
      filen.ReadDirectory f rb r.baseFolderUUID = Except.ok (files0, dirs0 ++
        [(⟨filen.freshUuid r.nextUuid, String.mk s1, r.baseFolderUUID, "<none>", r.now,
          false⟩ : filen.Directory)]) := by
    intro rb hgb
    refine filen.ReadDirectory_ok_of f rb r.baseFolderUUID _ files0 _ hgb hu0 ?_
    exact filen.transformFolders_append f.masterKeys c0.folders _ dirs0 _ hd0
      (filen.transformFolders_single f.masterKeys _ _ _ _ _ _ (filen.currentKey_mem f hkeys))
  have hfind2 : (dirs0 ++ [(⟨filen.freshUuid r.nextUuid, String.mk s1, r.baseFolderUUID,
      "<none>", r.now, false⟩ : filen.Directory)]).find? (fun d => d.Name == String.mk s1) =
      some (⟨filen.freshUuid r.nextUuid, String.mk s1, r.baseFolderUUID, "<none>", r.now,
        false⟩ : filen.Directory) := by
    rw [List.find?_append, hFind, Option.none_or]
    simp [List.find?]
  have hloopeq : filen.FindDirectoryOrCreate f r path =
      filen.findDirectoryOrCreateLoop f (f.GetBaseFolderUUID r) r (s1 :: rest) := by
    unfold filen.FindDirectoryOrCreate
    simp only [hflat, Bool.false_eq_true, if_false]
    rw [filen.fdocLoop_filter, hsegs]
  have hstep1 : filen.findDirectoryOrCreateLoop f (f.GetBaseFolderUUID r) r (s1 :: rest) =
      filen.findDirectoryOrCreateLoop f (filen.freshUuid r.nextUuid) r1 rest := by
    simp [filen.findDirectoryOrCreateLoop, hs1, hRead, hFind, filen.Filen.GetBaseFolderUUID,
      hCreate, hr1, hentry1]
  cases rest with
  | nil =>
    refine ⟨r1, ?_, ?_, ?_⟩
    · rw [hloopeq, hstep1]
      rfl
    · rw [hr1]
      rfl
    · have hloopeq2 : filen.FindDirectoryOrCreate f r1 path =
          filen.findDirectoryOrCreateLoop f (f.GetBaseFolderUUID r1) r1 [s1] := by
        unfold filen.FindDirectoryOrCreate
        simp only [hflat, Bool.false_eq_true, if_false]
        rw [filen.fdocLoop_filter, hsegs]
      rw [hloopeq2]
      have hbase1 : f.GetBaseFolderUUID r1 = r.baseFolderUUID := by rw [hr1]; rfl
      rw [hbase1]
      have hRB := hReadBack r1 hr1base
      simp only [filen.findDirectoryOrCreateLoop, hs1, Bool.false_eq_true, if_false, hRB, hfind2]
      rfl
  | cons s2 t2 =>
    have hfresh1 : ∀ m, r1.nextUuid ≤ m → filen.freshUuid m ≠ filen.freshUuid r.nextUuid := by
      intro m hm heq
      have := filen.freshUuid_inj heq
      rw [hr1] at hm
      simp at hm
      omega
    obtain ⟨rF, hloopF, hnextF, hbaseF, hsecondF, hpresF⟩ :=
      filen.createChain f (s2 :: t2) r1 (filen.freshUuid r.nextUuid) hkeys (by simp)
        (fun x hx => hallne x (List.mem_cons_of_mem s1 hx)) hr1u1 hfresh1
    have hn1 : r1.nextUuid = r.nextUuid + 1 := by rw [hr1]
    have harith : r1.nextUuid + (s2 :: t2).length - 1 =
        r.nextUuid + (s1 :: s2 :: t2).length - 1 := by
      rw [hn1]
      simp only [List.length_cons]
      omega
    refine ⟨rF, ?_, ?_, ?_⟩
    · rw [hloopeq, hstep1, hloopF, harith]
    · rw [hnextF, hn1]
      simp only [List.length_cons]
      omega
    · have hloopeq2 : filen.FindDirectoryOrCreate f rF path =
          filen.findDirectoryOrCreateLoop f (f.GetBaseFolderUUID rF) rF (s1 :: s2 :: t2) := by
        unfold filen.FindDirectoryOrCreate
        simp only [hflat, Bool.false_eq_true, if_false]
        rw [filen.fdocLoop_filter, hsegs]
      rw [hloopeq2]
      have hbaseF2 : f.GetBaseFolderUUID rF = r.baseFolderUUID := by
        show rF.baseFolderUUID = r.baseFolderUUID
        rw [hbaseF, hr1]
      rw [hbaseF2]
      have hrFbase : filen.getContent rF r.baseFolderUUID =
          some ⟨c0.uploads, c0.folders ++ [entry1]⟩ := by
        rw [hpresF r.baseFolderUUID (fun he => hu1base he.symm)
          (fun m hm => hBaseFresh m (by rw [hn1] at hm; omega))]
        exact hr1base
      have hRB := hReadBack rF hrFbase
      have hstep2 : filen.findDirectoryOrCreateLoop f r.baseFolderUUID rF (s1 :: s2 :: t2) =
          filen.findDirectoryOrCreateLoop f (filen.freshUuid r.nextUuid) rF (s2 :: t2) := by
        simp [filen.findDirectoryOrCreateLoop, hs1, hRB, hfind2]
      rw [hstep2, hsecondF, harith]

/-- C6 witness: materializing x/y/z on an empty root creates exactly three
directories and returns the last one's UUID; re-running it on the resulting
state creates nothing, returns the same UUID, and leaves the state
untouched. -/
theorem c6_witness :
    ((filen.splitPath ("x/y/z" : String).data).filter (fun s => !s.isEmpty) =
      [("x" : String).data, ("y" : String).data, ("z" : String).data]) ∧
    (∃ rF, filen.FindDirectoryOrCreate filen.filenFix filen.remoteEmpty "x/y/z" =
        Except.ok (filen.freshUuid (filen.remoteEmpty.nextUuid +
          (("x" : String).data :: [("y" : String).data, ("z" : String).data]).length - 1),
          rF) ∧
      rF.nextUuid = filen.remoteEmpty.nextUuid +
        (("x" : String).data :: [("y" : String).data, ("z" : String).data]).length ∧
      filen.FindDirectoryOrCreate filen.filenFix rF "x/y/z" =
        Except.ok (filen.freshUuid (filen.remoteEmpty.nextUuid +
          (("x" : String).data :: [("y" : String).data, ("z" : String).data]).length - 1),
          rF)) :=
  ⟨by decide,
   c6_materialize_idempotent filen.filenFix filen.remoteEmpty "x/y/z" ("x" : String).data
     [("y" : String).data, ("z" : String).data] [] [] (by decide) (by decide) (by rfl) (by rfl)
     (fun m _ => filen.freshUuid_ne_base m)⟩
